import Mathlib

/-!
Verification of the Ying sampling memory-profiling allocator (`src/lib.rs`).

The allocator's three entry points (`alloc`, `dealloc`, `realloc`) are embedded
as pure state-transition functions over an explicit `AllocState`.  Concurrency is
modelled by linearizing whole calls: each call runs atomically on the shared
state, carrying the id of the calling thread; thread-local guard state is a map
from thread id to `YingThreadLocal`.  The underlying system allocator is an
oracle: each modelled call carries the pointer the system allocator would
return (`0` for null), and a ghost field `sysLive` records which blocks the
system allocator currently has outstanding, so that well-formedness of a trace
(frees matching live allocations, fresh pointers) and "live bytes" can be
stated.  `u64`/`usize` arithmetic is `Nat` with explicit reduction mod `2^64`
(and `u32` mod `2^32`) at every operation the code performs.
-/

set_option linter.unusedVariables false

namespace Ying

/-- `2^64`, the modulus of `u64`/`usize` arithmetic. -/
def U64 : Nat := 18446744073709551616

/-- `2^32`, the modulus of `u32` arithmetic. -/
def U32 : Nat := 4294967296

/-- Wrapping `u64`/`usize` addition (`fetch_add`, `+=` in release builds). -/
def u64add (a b : Nat) : Nat := (a + b) % U64

/-- Wrapping `u64`/`usize` subtraction (`fetch_sub`, `-=` in release builds). -/
def u64sub (a b : Nat) : Nat := (a + (U64 - b % U64)) % U64

/-! ### Association-list maps

`leapfrog::LeapMap` (used for the stats store and the outstanding-allocation
tracker) is modelled as an association list with the `LeapMap` contract:
`insert` overwrites any existing entry for the key, `remove` deletes it,
`get`/`contains_key` look it up.  The list order plays the role of the map's
(arbitrary) iteration order. -/

/-- Remove every binding of key `k` (`LeapMap::remove`). -/
def mapRemove (l : List (Nat × α)) (k : Nat) : List (Nat × α) :=
  l.filter (fun p => p.1 ≠ k)

/-- Insert binding `k ↦ v`, overwriting any previous binding (`LeapMap::insert`). -/
def mapInsert (l : List (Nat × α)) (k : Nat) (v : α) : List (Nat × α) :=
  (k, v) :: mapRemove l k

/-- Look up key `k` (`LeapMap::get`). -/
def mapLookup (l : List (Nat × α)) (k : Nat) : Option α :=
  (l.find? (fun p => p.1 = k)).map Prod.snd

/-- `LeapMap::contains_key`. -/
def mapContains (l : List (Nat × α)) (k : Nat) : Bool :=
  (mapLookup l k).isSome

/-- Update the value at key `k` in place if present, leaving the map otherwise
unchanged (`get_mut` + `kv_ref.update` on a `LeapMap`). -/
def mapAdjust (l : List (Nat × α)) (k : Nat) (f : α → α) : List (Nat × α) :=
  l.map (fun p => if p.1 = k then (p.1, f p.2) else p)

/-- The keys of an association list are pairwise distinct. -/
def NodupKeys (l : List (Nat × α)) : Prop := (l.map Prod.fst).Nodup

/-! ### Data model -/

/-- Modelled from the spec: `StackStats` is declared in the repository's
`callstack` module, which is not present under `src/` (only its use sites in
`lib.rs` are).  Per the spec's data model (§3) and Statistics Store contract
(§4.4), it aggregates counters for one call stack: cumulative allocated bytes,
allocation count, freed bytes and free count, all `u64`.  The captured stack
itself and the optional tracing span are irrelevant to the claims and omitted. -/
structure StackStats where
  allocated_bytes : Nat
  num_allocations : Nat
  freed_bytes : Nat
  num_frees : Nat
  deriving DecidableEq

/-- Modelled from the spec: `StackStats::new(stack, Some(size))` creates the
entry for a stack's first sampled allocation, "seeded with the given size"
(one allocation event, nothing freed yet). -/
def StackStats.new (size : Nat) : StackStats :=
  { allocated_bytes := size, num_allocations := 1, freed_bytes := 0, num_frees := 0 }

/-- Modelled from the spec: retained bytes = allocated − freed, always
recomputed, never stored. -/
def StackStats.retained_profiled_bytes (st : StackStats) : Nat :=
  st.allocated_bytes - st.freed_bytes

/-- `AllocInfo(stack_hash, allocation_timestamp_millis)`: the value type of the
outstanding-allocation tracker (`lib.rs`). -/
structure AllocInfo where
  stack_hash : Nat
  allocation_timestamp_millis : Nat
  deriving DecidableEq

/-- `YingThreadLocal`: the per-thread re-entrancy flag and sampling counter
(`alloc_locked : Cell<bool>`, `sample_count : Cell<u32>`). -/
structure YingThreadLocal where
  alloc_locked : Bool
  sample_count : Nat
  deriving DecidableEq

/-- `YingThreadLocal::new()`: flag clear, counter seeded at `0`. -/
def YingThreadLocal.new : YingThreadLocal :=
  { alloc_locked := false, sample_count := 0 }

/-- `YingThreadLocal::should_sample`: obtains the counter, checks the sampling
ratio, and advances the counter (as a `u32`) in one go.  With `ratio = 0` the
Rust `%` would panic; theorems about it therefore assume `0 < ratio`. -/
def YingThreadLocal.should_sample (tl : YingThreadLocal) (ratio : Nat) :
    Bool × YingThreadLocal :=
  (decide (tl.sample_count % ratio = 0),
   { tl with sample_count := (tl.sample_count + 1) % U32 })

/-- The `YingProfiler` configuration: `sampling_ratio : u32`,
`single_alloc_limit : usize`. -/
structure YingProfiler where
  sampling_ratio : Nat
  single_alloc_limit : Nat
  deriving DecidableEq

/-- The global state the interceptor acts on:
`TOTAL_RETAINED`, `PROFILED_ALLOCATED`, `PROFILED_RETAINED` (process-wide
`AtomicUsize`s), whether the lazily-constructed `YING_STATE` has been
initialized, its `stack_stats` and `outstanding_allocs` maps, the per-thread
`PROFILER_TL` states, plus two ghost components of the environment: `sysLive`,
the blocks the underlying `System` allocator currently has outstanding
(address ↦ size), and `denials`, the number of giant-allocation diagnostic
dumps printed. -/
structure AllocState where
  totalRetained : Nat
  profiledAllocated : Nat
  profiledRetained : Nat
  inited : Bool
  stackStats : List (Nat × StackStats)
  outstandingAllocs : List (Nat × AllocInfo)
  tls : Nat → YingThreadLocal
  sysLive : List (Nat × Nat)
  denials : Nat

/-- Replace thread `tid`'s thread-local state. -/
def tlsSet (s : AllocState) (tid : Nat) (tl : YingThreadLocal) : AllocState :=
  { s with tls := fun t => if t = tid then tl else s.tls t }

/-- `tl_state.set_allocator_lock()` on the calling thread. -/
def setAllocLock (s : AllocState) (tid : Nat) : AllocState :=
  tlsSet s tid { s.tls tid with alloc_locked := true }

/-- `tl_state.release_allocator_lock()` on the calling thread. -/
def releaseAllocLock (s : AllocState) (tid : Nat) : AllocState :=
  tlsSet s tid { s.tls tid with alloc_locked := false }

/-- `YingProfiler::check_and_deny_giant_allocations`: if the requested size
meets or exceeds `single_alloc_limit` AND the lazy global state is already
initialized (`Lazy::get(&YING_STATE).is_some()` — the code's own comment calls
the uninitialized case an edge case where the check cannot happen), it prints a
warning plus the responsible stack trace (counted by the ghost `denials`) and
returns a null pointer.  Note the incoming pointer is NOT freed on denial; the
block simply stays outstanding in `sysLive`.  The `lock_out_profiler` wrapper
around the dump only guards same-thread re-entrancy (spec §5: the wait
degenerates to a non-blocking check) and leaves the flag as it found it. -/
def checkAndDenyGiant (cfg : YingProfiler) (s : AllocState) (ptr size : Nat) :
    Nat × AllocState :=
  if cfg.single_alloc_limit ≤ size ∧ s.inited = true then
    (0, { s with denials := s.denials + 1 })
  else
    (ptr, s)

/-- The body of `alloc`'s profiling path, entered with the guard flag set:
bumps `PROFILED_ALLOCATED`/`PROFILED_RETAINED`, captures the stack (the
oracle-provided `hash` stands for `stack.compute_hash()`), upserts
`stack_stats` (incrementing `num_allocations`/`allocated_bytes` in place when
the hash is known, else inserting a fresh entry seeded with this size), and
records the allocation in `outstanding_allocs` keyed by the returned pointer
with the coarse-clock timestamp `time`.  Touching `YING_STATE` forces its lazy
initialization. -/
def allocProfilingBody (s : AllocState) (size ptr hash time : Nat) : AllocState :=
  let stats' :=
    match mapLookup s.stackStats hash with
    | some _ =>
        mapAdjust s.stackStats hash (fun st =>
          { st with num_allocations := u64add st.num_allocations 1,
                    allocated_bytes := u64add st.allocated_bytes size })
    | none => mapInsert s.stackStats hash (StackStats.new size)
  { s with inited := true,
           profiledAllocated := u64add s.profiledAllocated size,
           profiledRetained := u64add s.profiledRetained size,
           stackStats := stats',
           outstandingAllocs := mapInsert s.outstandingAllocs ptr ⟨hash, time⟩ }

/-- `YingProfiler::alloc(layout)` called on thread `tid` with
`size = layout.size()`.  `sysRet` is the pointer returned by
`System.alloc(layout)` (`0` = null); if non-null it is a fresh block recorded
in the ghost `sysLive`.  The result is the state after the call together with
the returned pointer.  Mirrors the source: giant-allocation check first, then
the unconditional `TOTAL_RETAINED` bump on success, then the guarded,
sampled profiling path (`should_sample` is only called when the thread's flag
is clear, and the flag is set for the duration of the path). -/
def YingProfiler.alloc (cfg : YingProfiler) (s : AllocState)
    (tid size sysRet hash time : Nat) : AllocState × Nat :=
  let s1 := if sysRet ≠ 0 then { s with sysLive := mapInsert s.sysLive sysRet size } else s
  let pr := checkAndDenyGiant cfg s1 sysRet size
  if pr.1 ≠ 0 then
    let s3 := { pr.2 with totalRetained := u64add pr.2.totalRetained size }
    if (s3.tls tid).alloc_locked then (s3, pr.1)
    else
      let sres := (s3.tls tid).should_sample cfg.sampling_ratio
      let s4 := tlsSet s3 tid sres.2
      if sres.1 then
        let s5 := allocProfilingBody (setAllocLock s4 tid) size pr.1 hash time
        (releaseAllocLock s5 tid, pr.1)
      else (s4, pr.1)
  else (pr.2, pr.1)

/-- `YingProfiler::dealloc(ptr, layout)` called on thread `tid` with
`addr = ptr as u64`, `size = layout.size()`.  Delegates to `System.dealloc`
(removing the block from the ghost `sysLive`) and decrements `TOTAL_RETAINED`
unconditionally; short-circuits if `YING_STATE` was never initialized; then,
only if the address is present in `outstanding_allocs`, decrements
`PROFILED_RETAINED` and — under the re-entrancy guard — removes the tracker
entry and bumps the owning stack's freed counters. -/
def YingProfiler.dealloc (cfg : YingProfiler) (s : AllocState)
    (tid addr size : Nat) : AllocState :=
  let s1 := { s with sysLive := mapRemove s.sysLive addr,
                     totalRetained := u64sub s.totalRetained size }
  if s1.inited = false then s1
  else if mapContains s1.outstandingAllocs addr then
    let s2 := { s1 with profiledRetained := u64sub s1.profiledRetained size }
    if (s2.tls tid).alloc_locked then s2
    else
      let s3 := setAllocLock s2 tid
      let s4 :=
        match mapLookup s3.outstandingAllocs addr with
        | some info =>
            { s3 with outstandingAllocs := mapRemove s3.outstandingAllocs addr,
                      stackStats := mapAdjust s3.stackStats info.stack_hash (fun st =>
                        { st with freed_bytes := u64add st.freed_bytes size,
                                  num_frees := u64add st.num_frees 1 }) }
        | none => s3
      releaseAllocLock s4 tid
  else s1

/-- `YingProfiler::realloc(ptr, layout, new_size)` called on thread `tid`:
a fused allocate-new + copy + free-old.  `sysRet` is the pointer returned by
`System.alloc(new_layout)`.  On success the old block is freed, the global
retained counter is adjusted by the size delta, and — if the old address was
a tracked sampled allocation — `PROFILED_RETAINED` is adjusted, the tracker
entry is re-keyed to the new address preserving the stored `AllocInfo`
(original timestamp), and the owning stack's `allocated_bytes` is adjusted by
the delta under the re-entrancy guard.  A giant `new_size` is denied the same
way as in `alloc` (null result, old block untouched, new block leaked). -/
def YingProfiler.realloc (cfg : YingProfiler) (s : AllocState)
    (tid addr oldSize newSize sysRet : Nat) : AllocState × Nat :=
  let s1 := if sysRet ≠ 0 then { s with sysLive := mapInsert s.sysLive sysRet newSize } else s
  let pr := checkAndDenyGiant cfg s1 sysRet newSize
  if pr.1 ≠ 0 then
    let s3 := { pr.2 with sysLive := mapRemove pr.2.sysLive addr }
    let s4 := { s3 with totalRetained :=
                  if oldSize < newSize then u64add s3.totalRetained (newSize - oldSize)
                  else u64sub s3.totalRetained (oldSize - newSize) }
    if s4.inited = true ∧ mapContains s4.outstandingAllocs addr then
      let s5 := { s4 with profiledRetained :=
                    if oldSize < newSize then u64add s4.profiledRetained (newSize - oldSize)
                    else u64sub s4.profiledRetained (oldSize - newSize) }
      if (s5.tls tid).alloc_locked then (s5, pr.1)
      else
        let s6 := setAllocLock s5 tid
        let s7 :=
          match mapLookup s6.outstandingAllocs addr with
          | some info =>
              { s6 with outstandingAllocs :=
                          mapInsert (mapRemove s6.outstandingAllocs addr) pr.1 info,
                        stackStats := mapAdjust s6.stackStats info.stack_hash (fun st =>
                          { st with allocated_bytes :=
                              if oldSize < newSize then
                                u64add st.allocated_bytes (newSize - oldSize)
                              else u64sub st.allocated_bytes (oldSize - newSize) }) }
          | none => s6
        (releaseAllocLock s7 tid, pr.1)
    else (s4, pr.1)
  else (pr.2, pr.1)

/-! ### Query API -/

/-- `get_stats_for_stack_hash`. -/
def get_stats_for_stack_hash (s : AllocState) (h : Nat) : Option StackStats :=
  mapLookup s.stackStats h

/-- One step of the insertion sort modelling `sort_unstable_by`. -/
def insertDesc (x : Nat × Nat) : List (Nat × Nat) → List (Nat × Nat)
  | [] => [x]
  | y :: ys => if y.2 < x.2 then x :: y :: ys else y :: insertDesc x ys

/-- Models `items.sort_unstable_by(|a, b| b.1.cmp(&a.1))`: sort by the metric
(second component) in descending order, ties broken arbitrarily. -/
def sortByDesc (l : List (Nat × Nat)) : List (Nat × Nat) :=
  l.foldr insertDesc []

/-- `stack_list_allocated_bytes_desc`: every `(stack_hash, allocated_bytes)`
pair of the stats store, sorted by bytes allocated, descending. -/
def stack_list_allocated_bytes_desc (s : AllocState) : List (Nat × Nat) :=
  sortByDesc (s.stackStats.map (fun p => (p.1, p.2.allocated_bytes)))

/-- `YingProfiler::top_k_stacks_by_allocated(k)`: executed under
`lock_out_profiler` (a read-only section that leaves the state unchanged);
takes the first `k` of the descending listing and re-hydrates each hash via
`get_stats_for_stack_hash`, silently skipping hashes whose entry has vanished
(`filter_map`). -/
def top_k_stacks_by_allocated (s : AllocState) (k : Nat) : List StackStats :=
  ((stack_list_allocated_bytes_desc s).take k).filterMap
    (fun p => get_stats_for_stack_hash s p.1)

/-! ### Traces -/

/-- One top-level call into the interceptor, with its oracle inputs: the
calling thread, the layout size(s), the pointer the system allocator returns
(`0` = null), and for `alloc` the stack hash and coarse timestamp the
profiling path would capture. -/
inductive Op
  | allocOp (tid size sysRet hash time : Nat)
  | deallocOp (tid addr size : Nat)
  | reallocOp (tid addr oldSize newSize sysRet : Nat)
  deriving DecidableEq

/-- The state after one call (result pointers discarded). -/
def step (cfg : YingProfiler) (s : AllocState) : Op → AllocState
  | .allocOp tid size sysRet hash time => (cfg.alloc s tid size sysRet hash time).1
  | .deallocOp tid addr size => cfg.dealloc s tid addr size
  | .reallocOp tid addr oldSize newSize sysRet =>
      (cfg.realloc s tid addr oldSize newSize sysRet).1

/-- Run a sequence of calls. -/
def run (cfg : YingProfiler) (s : AllocState) : List Op → AllocState
  | [] => s
  | op :: ops => run cfg (step cfg s op) ops

/-- The process-start state: counters zero, global state uninitialized, maps
empty, every thread's guard flag clear and sample counter seeded at `0`. -/
def initState : AllocState :=
  { totalRetained := 0, profiledAllocated := 0, profiledRetained := 0,
    inited := false, stackStats := [], outstandingAllocs := [],
    tls := fun _ => YingThreadLocal.new, sysLive := [], denials := 0 }

/-- A call is well-formed in state `s` when it respects the system allocator's
contract: layout sizes are `usize` values, freed/reallocated addresses are
currently-live blocks deallocated with their actual layout, and a non-null
pointer handed out by the system allocator is fresh. -/
def wfOp (cfg : YingProfiler) (s : AllocState) : Op → Bool
  | .allocOp _ size sysRet _ _ =>
      decide (size < U64) && (sysRet == 0 || !(mapContains s.sysLive sysRet))
  | .deallocOp _ addr size => mapLookup s.sysLive addr == some size
  | .reallocOp _ addr oldSize newSize sysRet =>
      (mapLookup s.sysLive addr == some oldSize) && decide (newSize < U64) &&
        (sysRet == 0 || !(mapContains s.sysLive sysRet))

/-- Every call of the trace is well-formed in the state it runs in. -/
def wfFrom (cfg : YingProfiler) (s : AllocState) : List Op → Bool
  | [] => true
  | op :: ops => wfOp cfg s op && wfFrom cfg (step cfg s op) ops

/-- A call is successful when it returns a non-null pointer (denied or failed
allocations are not successful; `dealloc` always is). -/
def okOp (cfg : YingProfiler) (s : AllocState) : Op → Bool
  | .allocOp tid size sysRet hash time => (cfg.alloc s tid size sysRet hash time).2 != 0
  | .deallocOp _ _ _ => true
  | .reallocOp tid addr oldSize newSize sysRet =>
      (cfg.realloc s tid addr oldSize newSize sysRet).2 != 0

/-- Every call of the trace is successful. -/
def okFrom (cfg : YingProfiler) (s : AllocState) : List Op → Bool
  | [] => true
  | op :: ops => okOp cfg s op && okFrom cfg (step cfg s op) ops

/-- Total bytes of the blocks the system allocator has outstanding. -/
def sumLive (l : List (Nat × Nat)) : Nat := (l.map Prod.snd).sum

/-- Byte volume a call can add to cumulative counters. -/
def opVolume : Op → Nat
  | .allocOp _ size _ _ _ => size
  | .deallocOp _ _ _ => 0
  | .reallocOp _ _ _ newSize _ => newSize

/-- Cumulative byte volume of a trace; keeping it below `2^64` rules out
`u64` counter wrap-around. -/
def totalVolume (ops : List Op) : Nat := (ops.map opVolume).sum

/-- Bytes of currently-live blocks attributed to stack hash `h` through the
outstanding-allocation tracker. -/
def tbAux (tracker : List (Nat × AllocInfo)) (live : List (Nat × Nat)) (h : Nat) : Nat :=
  (tracker.map (fun p => if p.2.stack_hash = h then (mapLookup live p.1).getD 0 else 0)).sum

/-- `tbAux` applied to a state's tracker and live set. -/
def trackedBytes (s : AllocState) (h : Nat) : Nat :=
  tbAux s.outstandingAllocs s.sysLive h

/-! ### Spec-side tracker semantics (for the tracker-contents claim)

The spec characterizes the tracker extensionally: "an AllocInfo entry exists
if and only if its address was the result of a sampled allocation that has not
yet been freed or moved away."  The following fold is that characterization,
written from the spec's words (§3 AllocInfo, §4.2 Guard, §4.5 Tracker): an
allocation event that actually returns an address advances the calling
thread's sample counter and is sampled when the counter was `≡ 0 (mod ratio)`;
a sampled allocation's address enters the tracker; a free removes the address;
a successful reallocation re-keys the entry to the new address, preserving the
stored info.  (Whether an allocation returns an address depends on the
giant-allocation policy, which turns on once profiling has started — tracked
here by `inited`.) -/

/-- Spec-side fold state: per-thread sample counters, whether profiling has
initialized (first sampled allocation), and the tracker contents. -/
structure SpecTrack where
  counters : Nat → Nat
  inited : Bool
  tracker : List (Nat × AllocInfo)

/-- Modelled from the spec: one call's effect on the set of sampled,
still-live allocations (see section comment above). -/
def specStep (cfg : YingProfiler) (g : SpecTrack) : Op → SpecTrack
  | .allocOp tid size sysRet hash time =>
      let ret := if cfg.single_alloc_limit ≤ size ∧ g.inited = true then 0 else sysRet
      if ret ≠ 0 then
        let c := g.counters tid
        { counters := fun t => if t = tid then (c + 1) % U32 else g.counters t,
          inited := g.inited || decide (c % cfg.sampling_ratio = 0),
          tracker :=
            if c % cfg.sampling_ratio = 0 then mapInsert g.tracker ret ⟨hash, time⟩
            else g.tracker }
      else g
  | .deallocOp _ addr _ => { g with tracker := mapRemove g.tracker addr }
  | .reallocOp _ addr _ newSize sysRet =>
      let ret := if cfg.single_alloc_limit ≤ newSize ∧ g.inited = true then 0 else sysRet
      if ret ≠ 0 then
        match mapLookup g.tracker addr with
        | some info => { g with tracker := mapInsert (mapRemove g.tracker addr) ret info }
        | none => g
      else g

/-- Run the spec-side fold. -/
def specRun (cfg : YingProfiler) (g : SpecTrack) : List Op → SpecTrack
  | [] => g
  | op :: ops => specRun cfg (specStep cfg g op) ops

/-- Spec-side start state. -/
def specInit : SpecTrack :=
  { counters := fun _ => 0, inited := false, tracker := [] }

/-! ### Trace invariants -/

/-- Invariant for the global retained-bytes accounting: live block addresses
are distinct, block sizes are `usize` values, and `TOTAL_RETAINED` equals the
total live bytes reduced mod `2^64`. -/
structure InvC1 (s : AllocState) : Prop where
  liveNodup : NodupKeys s.sysLive
  sizes : ∀ p ∈ s.sysLive, p.2 < U64
  total : s.totalRetained = sumLive s.sysLive % U64

/-- Invariant relating a run of the interceptor to the spec-side tracker
fold: at every top-level call boundary all guard flags are clear, the sample
counters agree, initialization agrees, and the tracker contents agree (and
the tracker can only be non-empty once profiling has initialized). -/
structure InvC8 (s : AllocState) (g : SpecTrack) : Prop where
  flags : ∀ t, (s.tls t).alloc_locked = false
  counters : ∀ t, (s.tls t).sample_count = g.counters t
  init : s.inited = g.inited
  tracker : s.outstandingAllocs = g.tracker
  emptyOfUninit : s.inited = false → s.outstandingAllocs = []

/-- Invariant for the per-stack statistics, parametrized by a byte-volume
bound `V` dominating every `allocated_bytes` counter: guard flags are clear
at call boundaries, keys are distinct, every tracked allocation is a live
block whose owning stack has a statistics entry, and each entry's freed bytes
plus its live tracked bytes stay within its allocated bytes. -/
structure InvC7 (s : AllocState) (V : Nat) : Prop where
  flags : ∀ t, (s.tls t).alloc_locked = false
  liveNodup : NodupKeys s.sysLive
  trackNodup : NodupKeys s.outstandingAllocs
  trackLive : ∀ p ∈ s.outstandingAllocs, (mapLookup s.sysLive p.1).isSome = true
  trackStats : ∀ p ∈ s.outstandingAllocs,
      (mapLookup s.stackStats p.2.stack_hash).isSome = true
  statsInv : ∀ h st, mapLookup s.stackStats h = some st →
      st.freed_bytes + trackedBytes s h ≤ st.allocated_bytes ∧
        st.allocated_bytes ≤ V
  uninit : s.inited = false → s.stackStats = [] ∧ s.outstandingAllocs = []

/-! ## Lemmas about the association-list maps -/

theorem mapLookup_cons (p : Nat × α) (l : List (Nat × α)) (k : Nat) :
    mapLookup (p :: l) k = if p.1 = k then some p.2 else mapLookup l k := by
  by_cases h : p.1 = k <;> simp [mapLookup, List.find?_cons, h]

theorem mapLookup_remove (l : List (Nat × α)) (k k' : Nat) :
    mapLookup (mapRemove l k) k' = if k' = k then none else mapLookup l k' := by
  induction l with
  | nil => by_cases h : k' = k <;> simp [mapRemove, mapLookup, h]
  | cons p l ih =>
      by_cases hp : p.1 = k
      · have hstep : mapRemove (p :: l) k = mapRemove l k := by
          simp [mapRemove, List.filter_cons, hp]
        rw [hstep, ih]
        by_cases h : k' = k
        · rw [if_pos h, if_pos h]
        · rw [if_neg h, if_neg h, mapLookup_cons]
          have hne : p.1 ≠ k' := by rw [hp]; exact fun he => h he.symm
          rw [if_neg hne]
      · have hstep : mapRemove (p :: l) k = p :: mapRemove l k := by
          simp [mapRemove, List.filter_cons, hp]
        rw [hstep, mapLookup_cons, ih]
        by_cases hpk : p.1 = k'
        · have h : k' ≠ k := fun he => hp (hpk.trans he)
          rw [if_pos hpk, if_neg h, mapLookup_cons, if_pos hpk]
        · rw [if_neg hpk]
          by_cases h : k' = k
          · rw [if_pos h, if_pos h]
          · rw [if_neg h, if_neg h, mapLookup_cons, if_neg hpk]

theorem mapLookup_insert (l : List (Nat × α)) (k : Nat) (v : α) (k' : Nat) :
    mapLookup (mapInsert l k v) k' = if k' = k then some v else mapLookup l k' := by
  rw [mapInsert, mapLookup_cons]
  by_cases h : k' = k
  · rw [if_pos h.symm, if_pos h]
  · have hne : (k : Nat) ≠ k' := fun hk => h hk.symm
    rw [if_neg hne, mapLookup_remove, if_neg h, if_neg h]

theorem mapLookup_adjust (l : List (Nat × α)) (k : Nat) (f : α → α) (k' : Nat) :
    mapLookup (mapAdjust l k f) k' =
      if k' = k then (mapLookup l k).map f else mapLookup l k' := by
  induction l with
  | nil => by_cases h : k' = k <;> simp [mapAdjust, mapLookup, h]
  | cons p l ih =>
      have hstep : mapAdjust (p :: l) k f =
          (if p.1 = k then (p.1, f p.2) else p) :: mapAdjust l k f := by
        simp [mapAdjust]
      rw [hstep]
      by_cases hp : p.1 = k
      · rw [if_pos hp, mapLookup_cons]
        by_cases hpk : p.1 = k'
        · have h : k' = k := hpk.symm.trans hp
          rw [if_pos hpk, if_pos h, mapLookup_cons, if_pos hp]
          rfl
        · have h : k' ≠ k := fun he => hpk (hp.trans he.symm)
          rw [if_neg hpk, ih, if_neg h, if_neg h, mapLookup_cons, if_neg hpk]
      · rw [if_neg hp, mapLookup_cons]
        by_cases hpk : p.1 = k'
        · have h : k' ≠ k := fun he => hp (hpk.trans he)
          rw [if_pos hpk, if_neg h, mapLookup_cons, if_pos hpk]
        · rw [if_neg hpk, ih]
          by_cases h : k' = k
          · rw [if_pos h, if_pos h, mapLookup_cons, if_neg hp]
          · rw [if_neg h, if_neg h, mapLookup_cons, if_neg hpk]

theorem mapContains_eq_true (l : List (Nat × α)) (k : Nat) :
    mapContains l k = true ↔ ∃ v, mapLookup l k = some v := by
  simp [mapContains, Option.isSome_iff_exists]

theorem mapContains_eq_false (l : List (Nat × α)) (k : Nat) :
    mapContains l k = false ↔ mapLookup l k = none := by
  cases h : mapLookup l k <;> simp [mapContains, h]

theorem mapRemove_eq_self (l : List (Nat × α)) (k : Nat)
    (h : mapContains l k = false) : mapRemove l k = l := by
  rw [mapContains_eq_false] at h
  induction l with
  | nil => rfl
  | cons p l ih =>
      rw [mapLookup_cons] at h
      by_cases hp : p.1 = k
      · rw [if_pos hp] at h; exact absurd h (by simp)
      · rw [if_neg hp] at h
        have hstep : mapRemove (p :: l) k = p :: mapRemove l k := by
          simp [mapRemove, List.filter_cons, hp]
        rw [hstep, ih h]

theorem mem_mapRemove (l : List (Nat × α)) (k : Nat) (p : Nat × α) :
    p ∈ mapRemove l k ↔ p ∈ l ∧ p.1 ≠ k := by
  simp [mapRemove, List.mem_filter]

theorem mem_mapInsert (l : List (Nat × α)) (k : Nat) (v : α) (p : Nat × α) :
    p ∈ mapInsert l k v ↔ p = (k, v) ∨ (p ∈ l ∧ p.1 ≠ k) := by
  simp [mapInsert, mem_mapRemove]

theorem mapLookup_mem (l : List (Nat × α)) (k : Nat) (v : α)
    (h : mapLookup l k = some v) : (k, v) ∈ l := by
  induction l with
  | nil => simp [mapLookup] at h
  | cons p l ih =>
      rw [mapLookup_cons] at h
      by_cases hp : p.1 = k
      · rw [if_pos hp] at h
        have hpk : p = (k, v) := by
          cases p
          simp_all
        rw [← hpk]
        exact List.mem_cons_self _ _
      · rw [if_neg hp] at h
        exact List.mem_cons_of_mem _ (ih h)

theorem mapLookup_isSome_of_mem (l : List (Nat × α)) (p : Nat × α)
    (h : p ∈ l) : (mapLookup l p.1).isSome = true := by
  induction l with
  | nil => simp at h
  | cons q l ih =>
      rw [mapLookup_cons]
      rcases List.mem_cons.mp h with rfl | hm
      · simp
      · by_cases hq : q.1 = p.1
        · simp [hq]
        · rw [if_neg hq]; exact ih hm

theorem mapLookup_of_mem_nodup (l : List (Nat × α)) (p : Nat × α)
    (hn : NodupKeys l) (h : p ∈ l) : mapLookup l p.1 = some p.2 := by
  induction l with
  | nil => simp at h
  | cons q l ih =>
      rw [mapLookup_cons]
      rcases List.mem_cons.mp h with rfl | hm
      · simp
      · have hn' : NodupKeys l := by
          simpa [NodupKeys] using (List.nodup_cons.mp hn).2
        have hq : q.1 ≠ p.1 := by
          intro he
          have : q.1 ∈ l.map Prod.fst := by
            rw [he]; exact List.mem_map_of_mem Prod.fst hm
          exact (List.nodup_cons.mp hn).1 this
        rw [if_neg hq]; exact ih hn' hm

theorem nodupKeys_nil : NodupKeys ([] : List (Nat × α)) := by simp [NodupKeys]

theorem nodupKeys_mapRemove (l : List (Nat × α)) (k : Nat)
    (h : NodupKeys l) : NodupKeys (mapRemove l k) := by
  unfold NodupKeys mapRemove at *
  exact (List.Sublist.map Prod.fst (List.filter_sublist l)).nodup h

theorem not_mem_keys_mapRemove (l : List (Nat × α)) (k : Nat) :
    k ∉ (mapRemove l k).map Prod.fst := by
  intro hmem
  rcases List.mem_map.mp hmem with ⟨p, hp, hk⟩
  exact ((mem_mapRemove l k p).mp hp).2 hk

theorem nodupKeys_mapInsert (l : List (Nat × α)) (k : Nat) (v : α)
    (h : NodupKeys l) : NodupKeys (mapInsert l k v) := by
  unfold NodupKeys mapInsert
  rw [List.map_cons, List.nodup_cons]
  exact ⟨not_mem_keys_mapRemove l k, nodupKeys_mapRemove l k h⟩

theorem keys_mapAdjust (l : List (Nat × α)) (k : Nat) (f : α → α) :
    (mapAdjust l k f).map Prod.fst = l.map Prod.fst := by
  unfold mapAdjust
  rw [List.map_map]
  apply List.map_congr_left
  intro p _
  by_cases hp : p.1 = k <;> simp [hp]

theorem nodupKeys_mapAdjust (l : List (Nat × α)) (k : Nat) (f : α → α)
    (h : NodupKeys l) : NodupKeys (mapAdjust l k f) := by
  unfold NodupKeys
  rw [keys_mapAdjust]; exact h

/-! ## Lemmas about wrapping arithmetic -/

theorem u64add_eq (a b : Nat) (h : a + b < U64) : u64add a b = a + b :=
  Nat.mod_eq_of_lt h

theorem u64sub_eq (a b : Nat) (hba : b ≤ a) (ha : a < U64) : u64sub a b = a - b := by
  unfold u64sub
  have hb : b < U64 := lt_of_le_of_lt hba ha
  rw [Nat.mod_eq_of_lt hb]
  have h1 : a + (U64 - b) = (a - b) + U64 := by omega
  rw [h1, Nat.add_mod_right, Nat.mod_eq_of_lt (by omega)]

theorem u64add_mod (x b : Nat) : u64add (x % U64) b = (x + b) % U64 := by
  unfold u64add
  conv_rhs => rw [Nat.add_mod]
  rw [Nat.add_mod (x % U64) b, Nat.mod_mod_of_dvd x (dvd_refl U64)]

theorem u64sub_mod (x b : Nat) (hbx : b ≤ x) (hb : b < U64) :
    u64sub (x % U64) b = (x - b) % U64 := by
  unfold u64sub
  rw [Nat.mod_eq_of_lt hb, Nat.add_mod (x % U64) (U64 - b),
    Nat.mod_mod_of_dvd x (dvd_refl U64), ← Nat.add_mod]
  have h1 : x + (U64 - b) = (x - b) + U64 := by omega
  rw [h1, Nat.add_mod_right]

theorem mapContains_false_of_not_mem_keys (l : List (Nat × α)) (k : Nat)
    (h : k ∉ l.map Prod.fst) : mapContains l k = false := by
  cases hc : mapContains l k
  · rfl
  · rcases (mapContains_eq_true l k).mp hc with ⟨v, hv⟩
    exact absurd (List.mem_map_of_mem Prod.fst (mapLookup_mem l k v hv)) h

/-! ## Lemmas about `sumLive` and `tbAux` -/

theorem sumLive_cons (p : Nat × Nat) (l : List (Nat × Nat)) :
    sumLive (p :: l) = p.2 + sumLive l := by
  simp [sumLive]

theorem sumLive_mapRemove (l : List (Nat × Nat)) (k sz : Nat)
    (hn : NodupKeys l) (hl : mapLookup l k = some sz) :
    sumLive (mapRemove l k) + sz = sumLive l := by
  induction l with
  | nil => simp [mapLookup] at hl
  | cons p tl ih =>
      have hn' : NodupKeys tl := by
        simpa [NodupKeys] using (List.nodup_cons.mp hn).2
      rw [mapLookup_cons] at hl
      by_cases hp : p.1 = k
      · rw [if_pos hp] at hl
        have hps : p.2 = sz := Option.some.inj hl
        have hrem : mapRemove (p :: tl) k = mapRemove tl k := by
          simp [mapRemove, List.filter_cons, hp]
        have hnc : mapContains tl k = false := by
          apply mapContains_false_of_not_mem_keys
          rw [← hp]
          exact (List.nodup_cons.mp hn).1
        rw [hrem, mapRemove_eq_self tl k hnc, sumLive_cons, hps, Nat.add_comm]
      · rw [if_neg hp] at hl
        have hrem : mapRemove (p :: tl) k = p :: mapRemove tl k := by
          simp [mapRemove, List.filter_cons, hp]
        rw [hrem, sumLive_cons, sumLive_cons, Nat.add_assoc, ih hn' hl]

theorem sumLive_mapInsert (l : List (Nat × Nat)) (k v : Nat)
    (hc : mapContains l k = false) : sumLive (mapInsert l k v) = v + sumLive l := by
  rw [mapInsert, sumLive_cons, mapRemove_eq_self l k hc]

theorem tbAux_nil (live : List (Nat × Nat)) (h : Nat) : tbAux [] live h = 0 := rfl

theorem tbAux_cons (p : Nat × AllocInfo) (tracker : List (Nat × AllocInfo))
    (live : List (Nat × Nat)) (h : Nat) :
    tbAux (p :: tracker) live h =
      (if p.2.stack_hash = h then (mapLookup live p.1).getD 0 else 0) +
        tbAux tracker live h := by
  simp [tbAux]

theorem tbAux_congr_live (tracker : List (Nat × AllocInfo))
    (live live' : List (Nat × Nat)) (h : Nat)
    (hl : ∀ p ∈ tracker, mapLookup live' p.1 = mapLookup live p.1) :
    tbAux tracker live' h = tbAux tracker live h := by
  unfold tbAux
  congr 1
  apply List.map_congr_left
  intro p hp
  rw [hl p hp]

theorem tbAux_zero (tracker : List (Nat × AllocInfo)) (live : List (Nat × Nat))
    (h : Nat) (hz : ∀ p ∈ tracker, p.2.stack_hash ≠ h) : tbAux tracker live h = 0 := by
  unfold tbAux
  apply List.sum_eq_zero
  intro x hx
  rcases List.mem_map.mp hx with ⟨p, hp, rfl⟩
  rw [if_neg (hz p hp)]

theorem tbAux_le (tracker : List (Nat × AllocInfo)) (live : List (Nat × Nat))
    (addr : Nat) (sz : Nat) (info : AllocInfo) (h : Nat)
    (ht : mapLookup tracker addr = some info) (hl : mapLookup live addr = some sz)
    (hh : info.stack_hash = h) : sz ≤ tbAux tracker live h := by
  induction tracker with
  | nil => simp [mapLookup] at ht
  | cons p tr ih =>
      rw [mapLookup_cons] at ht
      rw [tbAux_cons]
      by_cases hp : p.1 = addr
      · rw [if_pos hp] at ht
        have hpi : p.2 = info := Option.some.inj ht
        rw [hp, hpi, if_pos hh, hl]
        simp
      · rw [if_neg hp] at ht
        exact le_trans (ih ht) (Nat.le_add_left _ _)

theorem tbAux_mapRemove (tracker : List (Nat × AllocInfo)) (live : List (Nat × Nat))
    (addr : Nat) (info : AllocInfo) (h : Nat)
    (hn : NodupKeys tracker) (ht : mapLookup tracker addr = some info) :
    tbAux (mapRemove tracker addr) live h +
      (if info.stack_hash = h then (mapLookup live addr).getD 0 else 0)
      = tbAux tracker live h := by
  induction tracker with
  | nil => simp [mapLookup] at ht
  | cons p tr ih =>
      have hn' : NodupKeys tr := by
        simpa [NodupKeys] using (List.nodup_cons.mp hn).2
      rw [mapLookup_cons] at ht
      by_cases hp : p.1 = addr
      · rw [if_pos hp] at ht
        have hpi : p.2 = info := Option.some.inj ht
        have hrem : mapRemove (p :: tr) addr = mapRemove tr addr := by
          simp [mapRemove, List.filter_cons, hp]
        have hnc : mapContains tr addr = false := by
          apply mapContains_false_of_not_mem_keys
          rw [← hp]
          exact (List.nodup_cons.mp hn).1
        rw [hrem, mapRemove_eq_self tr addr hnc, tbAux_cons, hp, hpi, Nat.add_comm]
      · rw [if_neg hp] at ht
        have hrem : mapRemove (p :: tr) addr = p :: mapRemove tr addr := by
          simp [mapRemove, List.filter_cons, hp]
        rw [hrem, tbAux_cons, tbAux_cons, Nat.add_assoc, ih hn' ht]

/-! ## Claim C5: `should_sample` -/

/-- C5: for every per-thread guard state and every (positive) ratio,
`should_sample(ratio)` returns true exactly when the current sample counter
modulo the ratio equals zero, and it advances the counter by one (`u32`
arithmetic; exactly by one whenever that does not wrap) regardless of the
outcome; a fresh thread state's counter is seeded at zero, so the very first
allocation on a new thread is eligible for sampling.  `ratio = 0` is excluded
because `counter % 0` panics in Rust. -/
theorem c5_should_sample (tl : YingThreadLocal) (ratio : Nat) (hr : 0 < ratio) :
    ((tl.should_sample ratio).1 = true ↔ tl.sample_count % ratio = 0) ∧
    (tl.should_sample ratio).2.sample_count = (tl.sample_count + 1) % U32 ∧
    (tl.sample_count + 1 < U32 →
      (tl.should_sample ratio).2.sample_count = tl.sample_count + 1) ∧
    YingThreadLocal.new.sample_count = 0 ∧
    (YingThreadLocal.new.should_sample ratio).1 = true := by
  refine ⟨by simp [YingThreadLocal.should_sample], rfl, ?_, rfl,
    by simp [YingThreadLocal.new, YingThreadLocal.should_sample]⟩
  intro h
  simp [YingThreadLocal.should_sample, Nat.mod_eq_of_lt h]

/-- Witness for C5 at a concrete guard state and ratio. -/
theorem c5_witness :
    ((YingThreadLocal.mk false 10).should_sample 5).1 = true ∧
    ((YingThreadLocal.mk false 10).should_sample 5).2.sample_count = 11 := by
  have h := c5_should_sample (YingThreadLocal.mk false 10) 5 (by decide)
  exact ⟨h.1.mpr (by decide), h.2.2.1 (by decide)⟩

/-! ## Claim C10: `dealloc` of a tracked address under a set guard flag -/

/-- C10: if `dealloc` is called for an address present in the
outstanding-allocation tracker while the calling thread's guard flag is
already set, the global `PROFILED_RETAINED` counter is still decremented by
the layout size (its decrement happens before the guard check), but the
tracker entry is not removed and the statistics store — in particular the
owning stack's `freed_bytes` and `num_frees` — is left unchanged.
(The two arithmetic side conditions rule out `usize` wrap-around of the
counter.) -/
theorem c10_dealloc_locked (cfg : YingProfiler) (s : AllocState)
    (tid addr size : Nat) (info : AllocInfo)
    (htrack : mapLookup s.outstandingAllocs addr = some info)
    (hinit : s.inited = true)
    (hlock : (s.tls tid).alloc_locked = true)
    (hsz : size ≤ s.profiledRetained) (hpr : s.profiledRetained < U64) :
    (cfg.dealloc s tid addr size).profiledRetained = s.profiledRetained - size ∧
    (cfg.dealloc s tid addr size).outstandingAllocs = s.outstandingAllocs ∧
    (cfg.dealloc s tid addr size).stackStats = s.stackStats := by
  unfold YingProfiler.dealloc
  simp only [hinit, mapContains, htrack, hlock, Bool.false_eq_true, if_false,
    Option.isSome_some, if_true]
  exact ⟨u64sub_eq _ _ hsz hpr, rfl, rfl⟩

/-- Witness for C10 at a concrete state. -/
theorem c10_witness :
    (YingProfiler.dealloc ⟨5, 1000⟩
      { totalRetained := 200, profiledAllocated := 150, profiledRetained := 100,
        inited := true, stackStats := [(2, ⟨64, 1, 0, 0⟩)],
        outstandingAllocs := [(5, ⟨2, 3⟩)], tls := fun _ => ⟨true, 4⟩,
        sysLive := [(5, 64)], denials := 0 }
      0 5 64).profiledRetained = 36 ∧
    (YingProfiler.dealloc ⟨5, 1000⟩
      { totalRetained := 200, profiledAllocated := 150, profiledRetained := 100,
        inited := true, stackStats := [(2, ⟨64, 1, 0, 0⟩)],
        outstandingAllocs := [(5, ⟨2, 3⟩)], tls := fun _ => ⟨true, 4⟩,
        sysLive := [(5, 64)], denials := 0 }
      0 5 64).outstandingAllocs = [(5, ⟨2, 3⟩)] := by
  have h := c10_dealloc_locked ⟨5, 1000⟩
    { totalRetained := 200, profiledAllocated := 150, profiledRetained := 100,
      inited := true, stackStats := [(2, ⟨64, 1, 0, 0⟩)],
      outstandingAllocs := [(5, ⟨2, 3⟩)], tls := fun _ => ⟨true, 4⟩,
      sysLive := [(5, 64)], denials := 0 }
    0 5 64 ⟨2, 3⟩ (by decide) rfl rfl (by decide) (by decide)
  exact ⟨h.1, h.2.1⟩

/-! ## Result characterization of the entry points -/

theorem checkAndDenyGiant_fst (cfg : YingProfiler) (s : AllocState) (ptr size : Nat) :
    (checkAndDenyGiant cfg s ptr size).1 =
      if cfg.single_alloc_limit ≤ size ∧ s.inited = true then 0 else ptr := by
  unfold checkAndDenyGiant
  split <;> rfl

/-- The pointer `alloc` returns: null when the giant-allocation check fires
(which requires the state to be initialized), otherwise whatever the system
allocator returned. -/
theorem alloc_result (cfg : YingProfiler) (s : AllocState)
    (tid size sysRet hash time : Nat) :
    (cfg.alloc s tid size sysRet hash time).2 =
      if cfg.single_alloc_limit ≤ size ∧ s.inited = true then 0 else sysRet := by
  by_cases h0 : sysRet = 0 <;>
    by_cases hd : cfg.single_alloc_limit ≤ size ∧ s.inited = true <;>
      simp [YingProfiler.alloc, checkAndDenyGiant, h0, hd, apply_ite Prod.snd]

/-- The pointer `realloc` returns, analogously. -/
theorem realloc_result (cfg : YingProfiler) (s : AllocState)
    (tid addr oldSize newSize sysRet : Nat) :
    (cfg.realloc s tid addr oldSize newSize sysRet).2 =
      if cfg.single_alloc_limit ≤ newSize ∧ s.inited = true then 0 else sysRet := by
  by_cases h0 : sysRet = 0 <;>
    by_cases hd : cfg.single_alloc_limit ≤ newSize ∧ s.inited = true <;>
      simp [YingProfiler.realloc, checkAndDenyGiant, h0, hd, apply_ite Prod.snd]

/-! ## Claim C3 (corrected): giant-allocation denial -/

/-- C3 counterexample: the claim says a denied giant allocation's underlying
system allocation is freed immediately.  It is not: the code path
(`check_and_deny_giant_allocations`) never calls `System.dealloc` on the
pointer, so the block stays outstanding (leaked).  Concretely: after one
sampled 16-byte allocation initializes the profiler (ratio 1, limit 1000
bytes), a 1000-byte request is denied (null result) yet the system block the
oracle handed out (address 2) is still live afterwards. -/
theorem c3_counterexample :
    (YingProfiler.alloc ⟨1, 1000⟩
        (run ⟨1, 1000⟩ initState [Op.allocOp 0 16 1 42 5]) 0 1000 2 7 9).2 = 0 ∧
    mapContains (YingProfiler.alloc ⟨1, 1000⟩
        (run ⟨1, 1000⟩ initState [Op.allocOp 0 16 1 42 5]) 0 1000 2 7 9).1.sysLive 2
      = true := by
  decide

/-- C3 (amended): for every allocate request whose size meets or exceeds the
configured `single_alloc_limit`, provided the profiler's global state has
already been initialized (the code skips the check otherwise), the request is
denied: the interceptor logs the stack trace responsible (one diagnostic dump)
and returns a null result — but the underlying system allocation is leaked,
not freed (it stays in the system allocator's outstanding set), and the
global retained-bytes counter is not touched. -/
theorem c3_giant_denied (cfg : YingProfiler) (s : AllocState)
    (tid size sysRet hash time : Nat)
    (hsz : cfg.single_alloc_limit ≤ size) (hinit : s.inited = true) :
    (cfg.alloc s tid size sysRet hash time).2 = 0 ∧
    (cfg.alloc s tid size sysRet hash time).1.denials = s.denials + 1 ∧
    (sysRet ≠ 0 →
      mapLookup (cfg.alloc s tid size sysRet hash time).1.sysLive sysRet = some size) ∧
    (cfg.alloc s tid size sysRet hash time).1.totalRetained = s.totalRetained := by
  by_cases h0 : sysRet = 0 <;>
    simp [YingProfiler.alloc, checkAndDenyGiant, h0, hsz, hinit, mapLookup_insert]

/-- Witness for C3 (amended) at a concrete initialized state. -/
theorem c3_witness :
    (YingProfiler.alloc ⟨5, 100⟩ { initState with inited := true } 0 100 3 7 9).2 = 0 ∧
    (YingProfiler.alloc ⟨5, 100⟩ { initState with inited := true } 0 100 3 7 9).1.denials
      = 1 := by
  have h := c3_giant_denied ⟨5, 100⟩ { initState with inited := true } 0 100 3 7 9
    (by decide) rfl
  exact ⟨h.1, h.2.1⟩

/-! ## Claim C4 (corrected): giant denial leaves accounting unchanged -/

/-- C4 counterexample: the claim says every allocation request at or above the
giant threshold returns null and changes no accounting.  If the lazy global
state has not been initialized yet, the code skips the giant check entirely:
from the process-start state, a 100-byte request with limit 100 returns the
system pointer (3, non-null) and bumps `TOTAL_RETAINED` to 100. -/
theorem c4_counterexample :
    ((YingProfiler.mk 5 100).single_alloc_limit ≤ 100) ∧
    (YingProfiler.alloc ⟨5, 100⟩ initState 0 100 3 7 9).2 = 3 ∧
    (YingProfiler.alloc ⟨5, 100⟩ initState 0 100 3 7 9).1.totalRetained = 100 := by
  decide

/-- C4 (amended): for every allocation request of size at or above the
configured giant threshold, provided the profiler's global state has been
initialized, `alloc` returns a null result and leaves all live-allocation
accounting unchanged: `TOTAL_RETAINED`, `PROFILED_ALLOCATED`,
`PROFILED_RETAINED`, the statistics store and the outstanding-allocation
tracker have the same contents after the call as before it (and the calling
thread's guard state is untouched). -/
theorem c4_giant_frame (cfg : YingProfiler) (s : AllocState)
    (tid size sysRet hash time : Nat)
    (hsz : cfg.single_alloc_limit ≤ size) (hinit : s.inited = true) :
    (cfg.alloc s tid size sysRet hash time).2 = 0 ∧
    (cfg.alloc s tid size sysRet hash time).1.totalRetained = s.totalRetained ∧
    (cfg.alloc s tid size sysRet hash time).1.profiledAllocated = s.profiledAllocated ∧
    (cfg.alloc s tid size sysRet hash time).1.profiledRetained = s.profiledRetained ∧
    (cfg.alloc s tid size sysRet hash time).1.stackStats = s.stackStats ∧
    (cfg.alloc s tid size sysRet hash time).1.outstandingAllocs = s.outstandingAllocs ∧
    (cfg.alloc s tid size sysRet hash time).1.tls tid = s.tls tid := by
  by_cases h0 : sysRet = 0 <;>
    simp [YingProfiler.alloc, checkAndDenyGiant, h0, hsz, hinit]

/-- Witness for C4 (amended) at a concrete initialized state. -/
theorem c4_witness :
    (YingProfiler.alloc ⟨7, 50⟩ { initState with inited := true } 1 64 4 8 2).2 = 0 ∧
    (YingProfiler.alloc ⟨7, 50⟩ { initState with inited := true } 1 64 4 8 2).1.totalRetained
      = 0 ∧
    (YingProfiler.alloc ⟨7, 50⟩ { initState with inited := true } 1 64 4 8 2).1.stackStats
      = [] := by
  have h := c4_giant_frame ⟨7, 50⟩ { initState with inited := true } 1 64 4 8 2
    (by decide) rfl
  exact ⟨h.1, h.2.1, h.2.2.2.2.1⟩

/-! ## Claim C6: `realloc` re-keys the tracker entry and adjusts the stats -/

/-- C6: for every reallocate of an address present in the
outstanding-allocation tracker that returns a non-null new pointer, called
with the thread's guard flag clear, the tracker entry is re-keyed from the old
address to the new address with the stored `AllocInfo` — in particular the
original allocation timestamp — preserved, and the owning stack's
`allocated_bytes` is adjusted by the size delta
(`new + old_size = old + new_size`) while `num_allocations`, `num_frees` and
`freed_bytes` are left unchanged.  Side conditions: the state is initialized
(necessarily true whenever the tracker is non-empty), the new pointer is fresh
(`sysRet ≠ addr`, the system allocator's contract), and the two arithmetic
bounds rule out `u64` wrap-around of `allocated_bytes`. -/
theorem c6_realloc_rekey (cfg : YingProfiler) (s : AllocState)
    (tid addr oldSize newSize sysRet : Nat) (info : AllocInfo) (st : StackStats)
    (htrack : mapLookup s.outstandingAllocs addr = some info)
    (hstat : mapLookup s.stackStats info.stack_hash = some st)
    (hinit : s.inited = true)
    (hlock : (s.tls tid).alloc_locked = false)
    (hres : (cfg.realloc s tid addr oldSize newSize sysRet).2 ≠ 0)
    (hfresh : sysRet ≠ addr)
    (hunder : oldSize - newSize ≤ st.allocated_bytes)
    (hover : st.allocated_bytes + (newSize - oldSize) < U64) :
    mapLookup (cfg.realloc s tid addr oldSize newSize sysRet).1.outstandingAllocs addr
      = none ∧
    mapLookup (cfg.realloc s tid addr oldSize newSize sysRet).1.outstandingAllocs sysRet
      = some info ∧
    ∃ st', mapLookup (cfg.realloc s tid addr oldSize newSize sysRet).1.stackStats
        info.stack_hash = some st' ∧
      st'.allocated_bytes + oldSize = st.allocated_bytes + newSize ∧
      st'.num_allocations = st.num_allocations ∧
      st'.num_frees = st.num_frees ∧
      st'.freed_bytes = st.freed_bytes := by
  rw [realloc_result] at hres
  by_cases hd : cfg.single_alloc_limit ≤ newSize ∧ s.inited = true
  · rw [if_pos hd] at hres
    exact absurd rfl hres
  have h0 : sysRet ≠ 0 := by
    rw [if_neg hd] at hres
    exact hres
  have hcont : mapContains s.outstandingAllocs addr = true := by
    simp [mapContains, htrack]
  have hnlim : ¬cfg.single_alloc_limit ≤ newSize := fun hle => hd ⟨hle, hinit⟩
  simp only [YingProfiler.realloc, checkAndDenyGiant, setAllocLock, releaseAllocLock,
    tlsSet, h0, hnlim, hinit, hlock, hcont, htrack, ne_eq, not_false_eq_true, if_true,
    if_false, ite_true, ite_false, not_true_eq_false, and_true, and_self,
    if_true, Bool.false_eq_true]
  refine ⟨?_, ?_, ?_⟩
  · rw [mapLookup_insert, if_neg (fun he => hfresh he.symm), mapLookup_remove, if_pos rfl]
  · rw [mapLookup_insert, if_pos rfl]
  · rw [mapLookup_adjust, if_pos rfl, hstat]
    refine ⟨_, rfl, ?_, rfl, rfl, rfl⟩
    dsimp only
    by_cases hlt : oldSize < newSize
    · rw [if_pos hlt, u64add_eq _ _ (by omega)]
      omega
    · rw [if_neg hlt, u64sub_eq _ _ hunder (by omega)]
      omega

/-- Witness for C6 at a concrete state: a tracked 16-byte allocation at
address 1 (stack hash 42, timestamp 5) is reallocated to 40 bytes at
address 2. -/
theorem c6_witness :
    mapLookup (YingProfiler.realloc ⟨5, 1000⟩
        { totalRetained := 16, profiledAllocated := 16, profiledRetained := 16,
          inited := true, stackStats := [(42, ⟨16, 1, 0, 0⟩)],
          outstandingAllocs := [(1, ⟨42, 5⟩)], tls := fun _ => ⟨false, 1⟩,
          sysLive := [(1, 16)], denials := 0 }
        0 1 16 40 2).1.outstandingAllocs 2 = some ⟨42, 5⟩ ∧
    ∃ st', mapLookup (YingProfiler.realloc ⟨5, 1000⟩
        { totalRetained := 16, profiledAllocated := 16, profiledRetained := 16,
          inited := true, stackStats := [(42, ⟨16, 1, 0, 0⟩)],
          outstandingAllocs := [(1, ⟨42, 5⟩)], tls := fun _ => ⟨false, 1⟩,
          sysLive := [(1, 16)], denials := 0 }
        0 1 16 40 2).1.stackStats 42 = some st' ∧
      st'.allocated_bytes + 16 = 16 + 40 := by
  have h := c6_realloc_rekey ⟨5, 1000⟩
    { totalRetained := 16, profiledAllocated := 16, profiledRetained := 16,
      inited := true, stackStats := [(42, ⟨16, 1, 0, 0⟩)],
      outstandingAllocs := [(1, ⟨42, 5⟩)], tls := fun _ => ⟨false, 1⟩,
      sysLive := [(1, 16)], denials := 0 }
    0 1 16 40 2 ⟨42, 5⟩ ⟨16, 1, 0, 0⟩ (by decide) (by decide) rfl rfl
    (by decide) (by decide) (by decide) (by decide)
  exact ⟨h.2.1, h.2.2.elim (fun st' hst' => ⟨st', hst'.1, hst'.2.1⟩)⟩

/-! ## Claim C2: the re-entrancy guard around `alloc`'s profiling path -/

/-- C2: for every call to `alloc` on a thread whose per-thread guard flag is
already set, the profiling path does not run: the statistics store, the
outstanding-allocation tracker, `PROFILED_ALLOCATED`, `PROFILED_RETAINED` and
the thread-local state itself are all unchanged by that call.  The profiling
path runs exactly when `should_sample` is invoked and returns true — i.e.
when the (post-giant-check) returned pointer is non-null, the flag is clear,
and the sample counter is `≡ 0` modulo the sampling ratio (reading
"`should_sample(sampling_ratio)` returns true" as presupposing the call
actually happens; on a null pointer `should_sample` is never reached).  When
it runs, the flag is set before the path begins (the state the profiling body
receives has the flag set) and cleared afterwards. -/
theorem c2_guard (cfg : YingProfiler) (s : AllocState)
    (tid size sysRet hash time : Nat) :
    ((s.tls tid).alloc_locked = true →
      (cfg.alloc s tid size sysRet hash time).1.stackStats = s.stackStats ∧
      (cfg.alloc s tid size sysRet hash time).1.outstandingAllocs
        = s.outstandingAllocs ∧
      (cfg.alloc s tid size sysRet hash time).1.profiledAllocated
        = s.profiledAllocated ∧
      (cfg.alloc s tid size sysRet hash time).1.profiledRetained
        = s.profiledRetained ∧
      (cfg.alloc s tid size sysRet hash time).1.tls tid = s.tls tid) ∧
    (((cfg.alloc s tid size sysRet hash time).2 ≠ 0 ∧
        (s.tls tid).alloc_locked = false ∧
        (s.tls tid).sample_count % cfg.sampling_ratio = 0) →
      (cfg.alloc s tid size sysRet hash time).1.profiledAllocated
          = u64add s.profiledAllocated size ∧
      (cfg.alloc s tid size sysRet hash time).1.profiledRetained
          = u64add s.profiledRetained size ∧
      (cfg.alloc s tid size sysRet hash time).1.outstandingAllocs
          = mapInsert s.outstandingAllocs
              (cfg.alloc s tid size sysRet hash time).2 ⟨hash, time⟩ ∧
      (mapLookup (cfg.alloc s tid size sysRet hash time).1.stackStats hash).isSome
          = true ∧
      (∃ σ, (cfg.alloc s tid size sysRet hash time).1 =
          releaseAllocLock
            (allocProfilingBody (setAllocLock σ tid) size
              (cfg.alloc s tid size sysRet hash time).2 hash time) tid ∧
        ((setAllocLock σ tid).tls tid).alloc_locked = true) ∧
      ((cfg.alloc s tid size sysRet hash time).1.tls tid).alloc_locked = false) ∧
    (¬((cfg.alloc s tid size sysRet hash time).2 ≠ 0 ∧
        (s.tls tid).alloc_locked = false ∧
        (s.tls tid).sample_count % cfg.sampling_ratio = 0) →
      (cfg.alloc s tid size sysRet hash time).1.stackStats = s.stackStats ∧
      (cfg.alloc s tid size sysRet hash time).1.outstandingAllocs
        = s.outstandingAllocs ∧
      (cfg.alloc s tid size sysRet hash time).1.profiledAllocated
        = s.profiledAllocated ∧
      (cfg.alloc s tid size sysRet hash time).1.profiledRetained
        = s.profiledRetained) := by
  refine ⟨?_, ?_, ?_⟩
  · intro hl
    by_cases h0 : sysRet = 0 <;>
      by_cases hd : cfg.single_alloc_limit ≤ size ∧ s.inited = true <;>
        simp [YingProfiler.alloc, checkAndDenyGiant, h0, hd, hl]
  · rintro ⟨hr, hl, hs⟩
    rw [alloc_result] at hr
    by_cases hd : cfg.single_alloc_limit ≤ size ∧ s.inited = true
    · rw [if_pos hd] at hr
      exact absurd rfl hr
    have h0 : sysRet ≠ 0 := by
      rw [if_neg hd] at hr
      exact hr
    have hstep : cfg.alloc s tid size sysRet hash time =
        (releaseAllocLock (allocProfilingBody (setAllocLock (tlsSet
            { s with sysLive := mapInsert s.sysLive sysRet size,
                     totalRetained := u64add s.totalRetained size } tid
            ((s.tls tid).should_sample cfg.sampling_ratio).2) tid)
          size sysRet hash time) tid, sysRet) := by
      simp [YingProfiler.alloc, checkAndDenyGiant, YingThreadLocal.should_sample,
        h0, hd, hl, hs]
    rw [hstep]
    refine ⟨by simp [releaseAllocLock, allocProfilingBody, setAllocLock, tlsSet],
      by simp [releaseAllocLock, allocProfilingBody, setAllocLock, tlsSet],
      by simp [releaseAllocLock, allocProfilingBody, setAllocLock, tlsSet],
      ?_, ⟨_, rfl, by simp [setAllocLock, tlsSet]⟩,
      by simp [releaseAllocLock, tlsSet]⟩
    cases hm : mapLookup s.stackStats hash <;>
      simp [releaseAllocLock, allocProfilingBody, setAllocLock, tlsSet, hm,
        mapLookup_adjust, mapLookup_insert]
  · intro hnot
    by_cases hl : (s.tls tid).alloc_locked = true
    · by_cases h0 : sysRet = 0 <;>
        by_cases hd : cfg.single_alloc_limit ≤ size ∧ s.inited = true <;>
          simp [YingProfiler.alloc, checkAndDenyGiant, h0, hd, hl]
    · have hl' : (s.tls tid).alloc_locked = false := by
        simpa using hl
      by_cases hd : cfg.single_alloc_limit ≤ size ∧ s.inited = true
      · by_cases h0 : sysRet = 0 <;>
          simp [YingProfiler.alloc, checkAndDenyGiant, h0, hd, hl']
      · by_cases h0 : sysRet = 0
        · simp [YingProfiler.alloc, checkAndDenyGiant, h0, hd, hl']
        · by_cases hs : (s.tls tid).sample_count % cfg.sampling_ratio = 0
          · exfalso
            apply hnot
            refine ⟨?_, hl', hs⟩
            rw [alloc_result, if_neg hd]
            exact h0
          · simp [YingProfiler.alloc, checkAndDenyGiant, YingThreadLocal.should_sample,
              tlsSet, h0, hd, hl', hs]

/-- Witness for C2: on a fresh thread (flag clear, counter 0 ≡ 0 mod 5) with a
successful 8-byte system allocation at address 1, the profiling path runs:
`PROFILED_ALLOCATED` becomes 8, the tracker gains the entry, and the guard
flag ends clear. -/
theorem c2_witness :
    (YingProfiler.alloc ⟨5, 1000⟩ initState 0 8 1 42 3).1.profiledAllocated
      = u64add initState.profiledAllocated 8 ∧
    (YingProfiler.alloc ⟨5, 1000⟩ initState 0 8 1 42 3).1.outstandingAllocs
      = mapInsert initState.outstandingAllocs
          (YingProfiler.alloc ⟨5, 1000⟩ initState 0 8 1 42 3).2 ⟨42, 3⟩ ∧
    ((YingProfiler.alloc ⟨5, 1000⟩ initState 0 8 1 42 3).1.tls 0).alloc_locked
      = false := by
  have h := (c2_guard ⟨5, 1000⟩ initState 0 8 1 42 3).2.1
    ⟨by decide, rfl, by decide⟩
  exact ⟨h.1, h.2.2.1, h.2.2.2.2.2⟩

/-! ## Claim C9: `top_k_stacks_by_allocated` -/

theorem insertDesc_mem (x : Nat × Nat) (l : List (Nat × Nat)) (y : Nat × Nat) :
    y ∈ insertDesc x l ↔ y = x ∨ y ∈ l := by
  induction l with
  | nil => simp [insertDesc]
  | cons z zs ih =>
      unfold insertDesc
      by_cases h : z.2 < x.2
      · simp [h, List.mem_cons]
      · simp only [h, if_false, List.mem_cons, ih]
        tauto

theorem sortByDesc_mem (l : List (Nat × Nat)) (y : Nat × Nat) :
    y ∈ sortByDesc l ↔ y ∈ l := by
  induction l with
  | nil => simp [sortByDesc]
  | cons p ps ih =>
      have hstep : sortByDesc (p :: ps) = insertDesc p (sortByDesc ps) := rfl
      rw [hstep, insertDesc_mem, List.mem_cons, ih]

theorem insertDesc_length (x : Nat × Nat) (l : List (Nat × Nat)) :
    (insertDesc x l).length = l.length + 1 := by
  induction l with
  | nil => rfl
  | cons z zs ih =>
      unfold insertDesc
      by_cases h : z.2 < x.2 <;> simp [h, ih]

theorem sortByDesc_length (l : List (Nat × Nat)) :
    (sortByDesc l).length = l.length := by
  induction l with
  | nil => rfl
  | cons p ps ih =>
      have hstep : sortByDesc (p :: ps) = insertDesc p (sortByDesc ps) := rfl
      rw [hstep, insertDesc_length, ih, List.length_cons]

theorem insertDesc_pairwise (x : Nat × Nat) (l : List (Nat × Nat))
    (hl : List.Pairwise (fun a b : Nat × Nat => b.2 ≤ a.2) l) :
    List.Pairwise (fun a b : Nat × Nat => b.2 ≤ a.2) (insertDesc x l) := by
  induction l with
  | nil => simp [insertDesc]
  | cons z zs ih =>
      rcases List.pairwise_cons.mp hl with ⟨hz, hzs⟩
      unfold insertDesc
      by_cases h : z.2 < x.2
      · rw [if_pos h]
        refine List.pairwise_cons.mpr ⟨?_, hl⟩
        intro y hy
        rcases List.mem_cons.mp hy with rfl | hy'
        · exact Nat.le_of_lt h
        · exact le_trans (hz y hy') (Nat.le_of_lt h)
      · rw [if_neg h]
        refine List.pairwise_cons.mpr ⟨?_, ih hzs⟩
        intro y hy
        rcases (insertDesc_mem x zs y).mp hy with rfl | hy'
        · exact Nat.le_of_not_lt h
        · exact hz y hy'

theorem sortByDesc_pairwise (l : List (Nat × Nat)) :
    List.Pairwise (fun a b : Nat × Nat => b.2 ≤ a.2) (sortByDesc l) := by
  induction l with
  | nil => simp [sortByDesc]
  | cons p ps ih => exact insertDesc_pairwise p (sortByDesc ps) ih

theorem pairwise_filterMap_of (R : α → α → Prop) (S : β → β → Prop) (f : α → Option β)
    (l : List α) (hl : List.Pairwise R l)
    (hf : ∀ a ∈ l, ∀ b ∈ l, R a b → ∀ x, f a = some x → ∀ y, f b = some y → S x y) :
    List.Pairwise S (l.filterMap f) := by
  induction l with
  | nil => simp
  | cons a as ih =>
      rcases List.pairwise_cons.mp hl with ⟨ha, has⟩
      have ih' : List.Pairwise S (as.filterMap f) :=
        ih has (fun p hp q hq hr => hf p (List.mem_cons_of_mem a hp)
          q (List.mem_cons_of_mem a hq) hr)
      cases hfa : f a with
      | none => simpa [List.filterMap_cons, hfa] using ih'
      | some x =>
          rw [List.filterMap_cons]
          simp only [hfa]
          refine List.pairwise_cons.mpr ⟨?_, ih'⟩
          intro y hy
          rcases List.mem_filterMap.mp hy with ⟨b, hb, hfb⟩
          exact hf a (List.mem_cons_self a as) b (List.mem_cons_of_mem a hb)
            (ha b hb) x hfa y hfb

theorem length_filterMap_of_isSome (f : α → Option β) (l : List α)
    (h : ∀ a ∈ l, (f a).isSome = true) : (l.filterMap f).length = l.length := by
  induction l with
  | nil => rfl
  | cons a as ih =>
      cases hfa : f a with
      | none =>
          have := h a (List.mem_cons_self a as)
          rw [hfa] at this
          simp at this
      | some x =>
          rw [List.filterMap_cons]
          simp only [hfa, List.length_cons]
          rw [ih (fun b hb => h b (List.mem_cons_of_mem a hb))]

theorem listing_lookup (l : List (Nat × StackStats)) (hn : NodupKeys l)
    (p : Nat × Nat) (hp : p ∈ l.map (fun q => (q.1, q.2.allocated_bytes))) :
    ∃ v, mapLookup l p.1 = some v ∧ v.allocated_bytes = p.2 := by
  rcases List.mem_map.mp hp with ⟨q, hq, rfl⟩
  exact ⟨q.2, mapLookup_of_mem_nodup l q hn hq, rfl⟩

/-- C9: `top_k_stacks_by_allocated(k)` returns at most `k` `StackStats`
values, obtained by listing every `(hash, allocated_bytes)` pair of the
statistics store, sorting in descending order of `allocated_bytes` (ties
broken arbitrarily), taking the first `k` and looking each hash up again —
so the result is sorted descending by `allocated_bytes`, every element is a
current entry of the store, and (vanishing between listing and lookup being
impossible in the linearized model, where the whole query runs atomically
under `lock_out_profiler`) nothing is skipped: if the store has at most `k`
entries, all of them are returned.  The key-distinctness hypothesis holds for
every map built by `LeapMap` insertions. -/
theorem c9_top_k (s : AllocState) (k : Nat) (hn : NodupKeys s.stackStats) :
    (top_k_stacks_by_allocated s k).length ≤ k ∧
    List.Pairwise (fun a b : StackStats => b.allocated_bytes ≤ a.allocated_bytes)
      (top_k_stacks_by_allocated s k) ∧
    (∀ st ∈ top_k_stacks_by_allocated s k,
      ∃ h, get_stats_for_stack_hash s h = some st) ∧
    (s.stackStats.length ≤ k →
      (top_k_stacks_by_allocated s k).length = s.stackStats.length) := by
  unfold top_k_stacks_by_allocated stack_list_allocated_bytes_desc get_stats_for_stack_hash
  refine ⟨?_, ?_, ?_, ?_⟩
  · exact le_trans (List.length_filterMap_le _ _)
      (le_trans (List.length_take_le _ _) (Nat.le_refl _))
  · apply pairwise_filterMap_of (fun a b : Nat × Nat => b.2 ≤ a.2)
    · exact List.Pairwise.sublist (List.take_sublist _ _)
        (sortByDesc_pairwise (s.stackStats.map (fun p => (p.1, p.2.allocated_bytes))))
    · intro a hamem b hbmem hr x hx y hy
      have ha : a ∈ s.stackStats.map (fun p => (p.1, p.2.allocated_bytes)) :=
        (sortByDesc_mem _ _).mp ((List.take_sublist _ _).subset hamem)
      have hb : b ∈ s.stackStats.map (fun p => (p.1, p.2.allocated_bytes)) :=
        (sortByDesc_mem _ _).mp ((List.take_sublist _ _).subset hbmem)
      rcases listing_lookup s.stackStats hn a ha with ⟨va, hva, hva2⟩
      rcases listing_lookup s.stackStats hn b hb with ⟨vb, hvb, hvb2⟩
      have hxa : x = va := by
        rw [hva] at hx
        exact (Option.some.inj hx).symm
      have hyb : y = vb := by
        rw [hvb] at hy
        exact (Option.some.inj hy).symm
      rw [hxa, hyb, hva2, hvb2]
      exact hr
  · intro st hst
    rcases List.mem_filterMap.mp hst with ⟨p, hp, hfp⟩
    exact ⟨p.1, hfp⟩
  · intro hk
    have hlen : (sortByDesc (s.stackStats.map
        (fun p => (p.1, p.2.allocated_bytes)))).length = s.stackStats.length := by
      rw [sortByDesc_length, List.length_map]
    have htake : (sortByDesc (s.stackStats.map
        (fun p => (p.1, p.2.allocated_bytes)))).take k
        = sortByDesc (s.stackStats.map (fun p => (p.1, p.2.allocated_bytes))) :=
      List.take_of_length_le (by rw [hlen]; exact hk)
    rw [htake, length_filterMap_of_isSome, hlen]
    intro p hp
    have hmem : p ∈ s.stackStats.map (fun q => (q.1, q.2.allocated_bytes)) :=
      (sortByDesc_mem _ _).mp hp
    rcases listing_lookup s.stackStats hn p hmem with ⟨v, hv, _⟩
    rw [hv]
    rfl

/-- Witness for C9 at a concrete two-entry statistics store. -/
theorem c9_witness :
    (top_k_stacks_by_allocated
      { initState with stackStats := [(1, ⟨100, 2, 0, 0⟩), (2, ⟨50, 1, 0, 0⟩)] }
      5).length ≤ 5 ∧
    (top_k_stacks_by_allocated
      { initState with stackStats := [(1, ⟨100, 2, 0, 0⟩), (2, ⟨50, 1, 0, 0⟩)] }
      5).length = 2 := by
  have h := c9_top_k
    { initState with stackStats := [(1, ⟨100, 2, 0, 0⟩), (2, ⟨50, 1, 0, 0⟩)] }
    5 (by unfold NodupKeys; decide)
  exact ⟨h.1, h.2.2.2 (by decide)⟩

/-! ## Branch-shape lemmas for the three entry points

Each lemma fixes one control-flow branch of an entry point and gives the
resulting value of every state component the trace invariants mention. -/

theorem alloc_null_spec (cfg : YingProfiler) (s : AllocState)
    (tid size sysRet hash time : Nat)
    (h : (cfg.alloc s tid size sysRet hash time).2 = 0) :
    (cfg.alloc s tid size sysRet hash time).1.sysLive
        = (if sysRet ≠ 0 then mapInsert s.sysLive sysRet size else s.sysLive) ∧
    (cfg.alloc s tid size sysRet hash time).1.totalRetained = s.totalRetained ∧
    (cfg.alloc s tid size sysRet hash time).1.profiledAllocated = s.profiledAllocated ∧
    (cfg.alloc s tid size sysRet hash time).1.profiledRetained = s.profiledRetained ∧
    (cfg.alloc s tid size sysRet hash time).1.inited = s.inited ∧
    (cfg.alloc s tid size sysRet hash time).1.stackStats = s.stackStats ∧
    (cfg.alloc s tid size sysRet hash time).1.outstandingAllocs = s.outstandingAllocs ∧
    (∀ t, (cfg.alloc s tid size sysRet hash time).1.tls t = s.tls t) := by
  rw [alloc_result] at h
  by_cases hd : cfg.single_alloc_limit ≤ size ∧ s.inited = true
  · by_cases h0 : sysRet = 0 <;>
      simp [YingProfiler.alloc, checkAndDenyGiant, h0, hd]
  · rw [if_neg hd] at h
    simp [YingProfiler.alloc, checkAndDenyGiant, h, hd]

theorem alloc_locked_spec (cfg : YingProfiler) (s : AllocState)
    (tid size sysRet hash time : Nat)
    (h0 : sysRet ≠ 0) (hd : ¬(cfg.single_alloc_limit ≤ size ∧ s.inited = true))
    (hl : (s.tls tid).alloc_locked = true) :
    (cfg.alloc s tid size sysRet hash time).1.sysLive
        = mapInsert s.sysLive sysRet size ∧
    (cfg.alloc s tid size sysRet hash time).1.totalRetained
        = u64add s.totalRetained size ∧
    (cfg.alloc s tid size sysRet hash time).1.profiledAllocated = s.profiledAllocated ∧
    (cfg.alloc s tid size sysRet hash time).1.profiledRetained = s.profiledRetained ∧
    (cfg.alloc s tid size sysRet hash time).1.inited = s.inited ∧
    (cfg.alloc s tid size sysRet hash time).1.stackStats = s.stackStats ∧
    (cfg.alloc s tid size sysRet hash time).1.outstandingAllocs = s.outstandingAllocs ∧
    (∀ t, (cfg.alloc s tid size sysRet hash time).1.tls t = s.tls t) := by
  simp [YingProfiler.alloc, checkAndDenyGiant, h0, hd, hl]

theorem alloc_unsampled_spec (cfg : YingProfiler) (s : AllocState)
    (tid size sysRet hash time : Nat)
    (h0 : sysRet ≠ 0) (hd : ¬(cfg.single_alloc_limit ≤ size ∧ s.inited = true))
    (hl : (s.tls tid).alloc_locked = false)
    (hs : ¬(s.tls tid).sample_count % cfg.sampling_ratio = 0) :
    (cfg.alloc s tid size sysRet hash time).1.sysLive
        = mapInsert s.sysLive sysRet size ∧
    (cfg.alloc s tid size sysRet hash time).1.totalRetained
        = u64add s.totalRetained size ∧
    (cfg.alloc s tid size sysRet hash time).1.profiledAllocated = s.profiledAllocated ∧
    (cfg.alloc s tid size sysRet hash time).1.profiledRetained = s.profiledRetained ∧
    (cfg.alloc s tid size sysRet hash time).1.inited = s.inited ∧
    (cfg.alloc s tid size sysRet hash time).1.stackStats = s.stackStats ∧
    (cfg.alloc s tid size sysRet hash time).1.outstandingAllocs = s.outstandingAllocs ∧
    (∀ t, (cfg.alloc s tid size sysRet hash time).1.tls t
        = if t = tid
          then { alloc_locked := (s.tls tid).alloc_locked,
                 sample_count := ((s.tls tid).sample_count + 1) % U32 }
          else s.tls t) := by
  refine ⟨?_, ?_, ?_, ?_, ?_, ?_, ?_, ?_⟩ <;>
    simp [YingProfiler.alloc, checkAndDenyGiant, YingThreadLocal.should_sample,
      tlsSet, h0, hd, hl, hs]

theorem alloc_sampled_spec (cfg : YingProfiler) (s : AllocState)
    (tid size sysRet hash time : Nat)
    (h0 : sysRet ≠ 0) (hd : ¬(cfg.single_alloc_limit ≤ size ∧ s.inited = true))
    (hl : (s.tls tid).alloc_locked = false)
    (hs : (s.tls tid).sample_count % cfg.sampling_ratio = 0) :
    (cfg.alloc s tid size sysRet hash time).1.sysLive
        = mapInsert s.sysLive sysRet size ∧
    (cfg.alloc s tid size sysRet hash time).1.totalRetained
        = u64add s.totalRetained size ∧
    (cfg.alloc s tid size sysRet hash time).1.profiledAllocated
        = u64add s.profiledAllocated size ∧
    (cfg.alloc s tid size sysRet hash time).1.profiledRetained
        = u64add s.profiledRetained size ∧
    (cfg.alloc s tid size sysRet hash time).1.inited = true ∧
    (cfg.alloc s tid size sysRet hash time).1.stackStats
        = (match mapLookup s.stackStats hash with
          | some _ => mapAdjust s.stackStats hash (fun st =>
              { st with num_allocations := u64add st.num_allocations 1,
                        allocated_bytes := u64add st.allocated_bytes size })
          | none => mapInsert s.stackStats hash (StackStats.new size)) ∧
    (cfg.alloc s tid size sysRet hash time).1.outstandingAllocs
        = mapInsert s.outstandingAllocs sysRet ⟨hash, time⟩ ∧
    (∀ t, (cfg.alloc s tid size sysRet hash time).1.tls t
        = if t = tid
          then { alloc_locked := false,
                 sample_count := ((s.tls tid).sample_count + 1) % U32 }
          else s.tls t) := by
  refine ⟨?_, ?_, ?_, ?_, ?_, ?_, ?_, ?_⟩ <;>
    simp [YingProfiler.alloc, checkAndDenyGiant, YingThreadLocal.should_sample,
      allocProfilingBody, setAllocLock, releaseAllocLock, tlsSet, h0, hd, hl, hs]
  intro t
  by_cases ht : t = tid <;> simp [ht]

theorem dealloc_skip_spec (cfg : YingProfiler) (s : AllocState)
    (tid addr size : Nat)
    (h : s.inited = false ∨ mapContains s.outstandingAllocs addr = false) :
    (cfg.dealloc s tid addr size).sysLive = mapRemove s.sysLive addr ∧
    (cfg.dealloc s tid addr size).totalRetained = u64sub s.totalRetained size ∧
    (cfg.dealloc s tid addr size).profiledAllocated = s.profiledAllocated ∧
    (cfg.dealloc s tid addr size).profiledRetained = s.profiledRetained ∧
    (cfg.dealloc s tid addr size).inited = s.inited ∧
    (cfg.dealloc s tid addr size).stackStats = s.stackStats ∧
    (cfg.dealloc s tid addr size).outstandingAllocs = s.outstandingAllocs ∧
    (∀ t, (cfg.dealloc s tid addr size).tls t = s.tls t) := by
  rcases h with hi | hc
  · simp [YingProfiler.dealloc, hi]
  · by_cases hi : s.inited = true
    · simp [YingProfiler.dealloc, hi, hc]
    · have hi' : s.inited = false := by
        simpa using hi
      simp [YingProfiler.dealloc, hi']

theorem dealloc_locked_spec (cfg : YingProfiler) (s : AllocState)
    (tid addr size : Nat)
    (hi : s.inited = true) (hc : mapContains s.outstandingAllocs addr = true)
    (hl : (s.tls tid).alloc_locked = true) :
    (cfg.dealloc s tid addr size).sysLive = mapRemove s.sysLive addr ∧
    (cfg.dealloc s tid addr size).totalRetained = u64sub s.totalRetained size ∧
    (cfg.dealloc s tid addr size).profiledAllocated = s.profiledAllocated ∧
    (cfg.dealloc s tid addr size).profiledRetained = u64sub s.profiledRetained size ∧
    (cfg.dealloc s tid addr size).inited = s.inited ∧
    (cfg.dealloc s tid addr size).stackStats = s.stackStats ∧
    (cfg.dealloc s tid addr size).outstandingAllocs = s.outstandingAllocs ∧
    (∀ t, (cfg.dealloc s tid addr size).tls t = s.tls t) := by
  simp [YingProfiler.dealloc, hi, hc, hl]

theorem dealloc_tracked_spec (cfg : YingProfiler) (s : AllocState)
    (tid addr size : Nat) (info : AllocInfo)
    (hi : s.inited = true)
    (hinfo : mapLookup s.outstandingAllocs addr = some info)
    (hl : (s.tls tid).alloc_locked = false) :
    (cfg.dealloc s tid addr size).sysLive = mapRemove s.sysLive addr ∧
    (cfg.dealloc s tid addr size).totalRetained = u64sub s.totalRetained size ∧
    (cfg.dealloc s tid addr size).profiledAllocated = s.profiledAllocated ∧
    (cfg.dealloc s tid addr size).profiledRetained = u64sub s.profiledRetained size ∧
    (cfg.dealloc s tid addr size).inited = s.inited ∧
    (cfg.dealloc s tid addr size).stackStats
        = mapAdjust s.stackStats info.stack_hash (fun st =>
            { st with freed_bytes := u64add st.freed_bytes size,
                      num_frees := u64add st.num_frees 1 }) ∧
    (cfg.dealloc s tid addr size).outstandingAllocs
        = mapRemove s.outstandingAllocs addr ∧
    (∀ t, (cfg.dealloc s tid addr size).tls t
        = if t = tid
          then { alloc_locked := false, sample_count := (s.tls tid).sample_count }
          else s.tls t) := by
  have hc : mapContains s.outstandingAllocs addr = true := by
    simp [mapContains, hinfo]
  refine ⟨?_, ?_, ?_, ?_, ?_, ?_, ?_, ?_⟩ <;>
    simp [YingProfiler.dealloc, setAllocLock, releaseAllocLock, tlsSet,
      hi, hc, hinfo, hl]
  intro t
  by_cases ht : t = tid <;> simp [ht]

theorem realloc_null_spec (cfg : YingProfiler) (s : AllocState)
    (tid addr oldSize newSize sysRet : Nat)
    (h : (cfg.realloc s tid addr oldSize newSize sysRet).2 = 0) :
    (cfg.realloc s tid addr oldSize newSize sysRet).1.sysLive
        = (if sysRet ≠ 0 then mapInsert s.sysLive sysRet newSize else s.sysLive) ∧
    (cfg.realloc s tid addr oldSize newSize sysRet).1.totalRetained = s.totalRetained ∧
    (cfg.realloc s tid addr oldSize newSize sysRet).1.profiledAllocated
        = s.profiledAllocated ∧
    (cfg.realloc s tid addr oldSize newSize sysRet).1.profiledRetained
        = s.profiledRetained ∧
    (cfg.realloc s tid addr oldSize newSize sysRet).1.inited = s.inited ∧
    (cfg.realloc s tid addr oldSize newSize sysRet).1.stackStats = s.stackStats ∧
    (cfg.realloc s tid addr oldSize newSize sysRet).1.outstandingAllocs
        = s.outstandingAllocs ∧
    (∀ t, (cfg.realloc s tid addr oldSize newSize sysRet).1.tls t = s.tls t) := by
  rw [realloc_result] at h
  by_cases hd : cfg.single_alloc_limit ≤ newSize ∧ s.inited = true
  · by_cases h0 : sysRet = 0 <;>
      simp [YingProfiler.realloc, checkAndDenyGiant, h0, hd]
  · rw [if_neg hd] at h
    simp [YingProfiler.realloc, checkAndDenyGiant, h, hd]

theorem realloc_untracked_spec (cfg : YingProfiler) (s : AllocState)
    (tid addr oldSize newSize sysRet : Nat)
    (h0 : sysRet ≠ 0) (hd : ¬(cfg.single_alloc_limit ≤ newSize ∧ s.inited = true))
    (hnc : ¬(s.inited = true ∧ mapContains s.outstandingAllocs addr = true)) :
    (cfg.realloc s tid addr oldSize newSize sysRet).1.sysLive
        = mapRemove (mapInsert s.sysLive sysRet newSize) addr ∧
    (cfg.realloc s tid addr oldSize newSize sysRet).1.totalRetained
        = (if oldSize < newSize then u64add s.totalRetained (newSize - oldSize)
           else u64sub s.totalRetained (oldSize - newSize)) ∧
    (cfg.realloc s tid addr oldSize newSize sysRet).1.profiledAllocated
        = s.profiledAllocated ∧
    (cfg.realloc s tid addr oldSize newSize sysRet).1.profiledRetained
        = s.profiledRetained ∧
    (cfg.realloc s tid addr oldSize newSize sysRet).1.inited = s.inited ∧
    (cfg.realloc s tid addr oldSize newSize sysRet).1.stackStats = s.stackStats ∧
    (cfg.realloc s tid addr oldSize newSize sysRet).1.outstandingAllocs
        = s.outstandingAllocs ∧
    (∀ t, (cfg.realloc s tid addr oldSize newSize sysRet).1.tls t = s.tls t) := by
  refine ⟨?_, ?_, ?_, ?_, ?_, ?_, ?_, ?_⟩ <;>
    simp [YingProfiler.realloc, checkAndDenyGiant, h0, hd, hnc]

theorem realloc_locked_spec (cfg : YingProfiler) (s : AllocState)
    (tid addr oldSize newSize sysRet : Nat)
    (h0 : sysRet ≠ 0) (hd : ¬(cfg.single_alloc_limit ≤ newSize ∧ s.inited = true))
    (hi : s.inited = true) (hc : mapContains s.outstandingAllocs addr = true)
    (hl : (s.tls tid).alloc_locked = true) :
    (cfg.realloc s tid addr oldSize newSize sysRet).1.sysLive
        = mapRemove (mapInsert s.sysLive sysRet newSize) addr ∧
    (cfg.realloc s tid addr oldSize newSize sysRet).1.totalRetained
        = (if oldSize < newSize then u64add s.totalRetained (newSize - oldSize)
           else u64sub s.totalRetained (oldSize - newSize)) ∧
    (cfg.realloc s tid addr oldSize newSize sysRet).1.profiledAllocated
        = s.profiledAllocated ∧
    (cfg.realloc s tid addr oldSize newSize sysRet).1.profiledRetained
        = (if oldSize < newSize then u64add s.profiledRetained (newSize - oldSize)
           else u64sub s.profiledRetained (oldSize - newSize)) ∧
    (cfg.realloc s tid addr oldSize newSize sysRet).1.inited = s.inited ∧
    (cfg.realloc s tid addr oldSize newSize sysRet).1.stackStats = s.stackStats ∧
    (cfg.realloc s tid addr oldSize newSize sysRet).1.outstandingAllocs
        = s.outstandingAllocs ∧
    (∀ t, (cfg.realloc s tid addr oldSize newSize sysRet).1.tls t = s.tls t) := by
  have hnlim : ¬cfg.single_alloc_limit ≤ newSize := fun hle => hd ⟨hle, hi⟩
  refine ⟨?_, ?_, ?_, ?_, ?_, ?_, ?_, ?_⟩ <;>
    simp [YingProfiler.realloc, checkAndDenyGiant, h0, hnlim, hi, hc, hl]

theorem realloc_tracked_spec (cfg : YingProfiler) (s : AllocState)
    (tid addr oldSize newSize sysRet : Nat) (info : AllocInfo)
    (h0 : sysRet ≠ 0) (hd : ¬(cfg.single_alloc_limit ≤ newSize ∧ s.inited = true))
    (hi : s.inited = true)
    (hinfo : mapLookup s.outstandingAllocs addr = some info)
    (hl : (s.tls tid).alloc_locked = false) :
    (cfg.realloc s tid addr oldSize newSize sysRet).1.sysLive
        = mapRemove (mapInsert s.sysLive sysRet newSize) addr ∧
    (cfg.realloc s tid addr oldSize newSize sysRet).1.totalRetained
        = (if oldSize < newSize then u64add s.totalRetained (newSize - oldSize)
           else u64sub s.totalRetained (oldSize - newSize)) ∧
    (cfg.realloc s tid addr oldSize newSize sysRet).1.profiledAllocated
        = s.profiledAllocated ∧
    (cfg.realloc s tid addr oldSize newSize sysRet).1.profiledRetained
        = (if oldSize < newSize then u64add s.profiledRetained (newSize - oldSize)
           else u64sub s.profiledRetained (oldSize - newSize)) ∧
    (cfg.realloc s tid addr oldSize newSize sysRet).1.inited = s.inited ∧
    (cfg.realloc s tid addr oldSize newSize sysRet).1.stackStats
        = mapAdjust s.stackStats info.stack_hash (fun st =>
            { st with allocated_bytes :=
                if oldSize < newSize then u64add st.allocated_bytes (newSize - oldSize)
                else u64sub st.allocated_bytes (oldSize - newSize) }) ∧
    (cfg.realloc s tid addr oldSize newSize sysRet).1.outstandingAllocs
        = mapInsert (mapRemove s.outstandingAllocs addr) sysRet info ∧
    (∀ t, (cfg.realloc s tid addr oldSize newSize sysRet).1.tls t
        = if t = tid
          then { alloc_locked := false, sample_count := (s.tls tid).sample_count }
          else s.tls t) := by
  have hnlim : ¬cfg.single_alloc_limit ≤ newSize := fun hle => hd ⟨hle, hi⟩
  have hc : mapContains s.outstandingAllocs addr = true := by
    simp [mapContains, hinfo]
  refine ⟨?_, ?_, ?_, ?_, ?_, ?_, ?_, ?_⟩ <;>
    simp [YingProfiler.realloc, checkAndDenyGiant, setAllocLock, releaseAllocLock,
      tlsSet, h0, hnlim, hi, hc, hinfo, hl]
  intro t
  by_cases ht : t = tid <;> simp [ht]

/-! ## Claim C1: global retained bytes = sum of live allocation sizes -/

theorem invC1_step (cfg : YingProfiler) (s : AllocState) (op : Op)
    (hI : InvC1 s) (hw : wfOp cfg s op = true) (ho : okOp cfg s op = true) :
    InvC1 (step cfg s op) := by
  cases op with
  | allocOp tid size sysRet hash time =>
      simp only [wfOp, Bool.and_eq_true, Bool.or_eq_true, decide_eq_true_eq,
        beq_iff_eq, Bool.not_eq_true'] at hw
      obtain ⟨hsz, hfresh⟩ := hw
      have hok : (cfg.alloc s tid size sysRet hash time).2 ≠ 0 := by
        simpa [okOp] using ho
      rw [alloc_result] at hok
      by_cases hd : cfg.single_alloc_limit ≤ size ∧ s.inited = true
      · rw [if_pos hd] at hok
        exact absurd rfl hok
      have h0 : sysRet ≠ 0 := by
        rw [if_neg hd] at hok
        exact hok
      have hfr : mapContains s.sysLive sysRet = false := by
        rcases hfresh with h | h
        · exact absurd h h0
        · exact h
      have hcore : (cfg.alloc s tid size sysRet hash time).1.sysLive
            = mapInsert s.sysLive sysRet size ∧
          (cfg.alloc s tid size sysRet hash time).1.totalRetained
            = u64add s.totalRetained size := by
        by_cases hl : (s.tls tid).alloc_locked = true
        · have h := alloc_locked_spec cfg s tid size sysRet hash time h0 hd hl
          exact ⟨h.1, h.2.1⟩
        · have hl' : (s.tls tid).alloc_locked = false := by
            simpa using hl
          by_cases hs : (s.tls tid).sample_count % cfg.sampling_ratio = 0
          · have h := alloc_sampled_spec cfg s tid size sysRet hash time h0 hd hl' hs
            exact ⟨h.1, h.2.1⟩
          · have h := alloc_unsampled_spec cfg s tid size sysRet hash time h0 hd hl' hs
            exact ⟨h.1, h.2.1⟩
      show InvC1 (cfg.alloc s tid size sysRet hash time).1
      refine ⟨?_, ?_, ?_⟩
      · rw [hcore.1]
        exact nodupKeys_mapInsert _ _ _ hI.liveNodup
      · rw [hcore.1]
        intro p hp
        rcases (mem_mapInsert _ _ _ _).mp hp with rfl | ⟨hpl, _⟩
        · exact hsz
        · exact hI.sizes p hpl
      · rw [hcore.1, hcore.2, hI.total, u64add_mod,
          sumLive_mapInsert _ _ _ hfr, Nat.add_comm]
  | deallocOp tid addr size =>
      simp only [wfOp, beq_iff_eq] at hw
      have hmem : (addr, size) ∈ s.sysLive := mapLookup_mem _ _ _ hw
      have hszlt : size < U64 := hI.sizes _ hmem
      have hcore : (cfg.dealloc s tid addr size).sysLive
            = mapRemove s.sysLive addr ∧
          (cfg.dealloc s tid addr size).totalRetained
            = u64sub s.totalRetained size := by
        by_cases hi : s.inited = true
        · by_cases hc : mapContains s.outstandingAllocs addr = true
          · by_cases hl : (s.tls tid).alloc_locked = true
            · have h := dealloc_locked_spec cfg s tid addr size hi hc hl
              exact ⟨h.1, h.2.1⟩
            · have hl' : (s.tls tid).alloc_locked = false := by
                simpa using hl
              rcases (mapContains_eq_true _ _).mp hc with ⟨info, hinfo⟩
              have h := dealloc_tracked_spec cfg s tid addr size info hi hinfo hl'
              exact ⟨h.1, h.2.1⟩
          · have h := dealloc_skip_spec cfg s tid addr size
              (Or.inr (by simpa using hc))
            exact ⟨h.1, h.2.1⟩
        · have h := dealloc_skip_spec cfg s tid addr size
            (Or.inl (by simpa using hi))
          exact ⟨h.1, h.2.1⟩
      have hrm := sumLive_mapRemove s.sysLive addr size hI.liveNodup hw
      show InvC1 (cfg.dealloc s tid addr size)
      refine ⟨?_, ?_, ?_⟩
      · rw [hcore.1]
        exact nodupKeys_mapRemove _ _ hI.liveNodup
      · rw [hcore.1]
        intro p hp
        exact hI.sizes p ((mem_mapRemove _ _ _).mp hp).1
      · rw [hcore.1, hcore.2, hI.total,
          u64sub_mod _ _ (by omega) hszlt]
        congr 1
        omega
  | reallocOp tid addr oldSize newSize sysRet =>
      simp only [wfOp, Bool.and_eq_true, Bool.or_eq_true, decide_eq_true_eq,
        beq_iff_eq, Bool.not_eq_true'] at hw
      obtain ⟨⟨hlk, hsz⟩, hfresh⟩ := hw
      have hok : (cfg.realloc s tid addr oldSize newSize sysRet).2 ≠ 0 := by
        simpa [okOp] using ho
      rw [realloc_result] at hok
      by_cases hd : cfg.single_alloc_limit ≤ newSize ∧ s.inited = true
      · rw [if_pos hd] at hok
        exact absurd rfl hok
      have h0 : sysRet ≠ 0 := by
        rw [if_neg hd] at hok
        exact hok
      have hfr : mapContains s.sysLive sysRet = false := by
        rcases hfresh with h | h
        · exact absurd h h0
        · exact h
      have hne : addr ≠ sysRet := by
        intro he
        rw [← he] at hfr
        rw [(mapContains_eq_false _ _).mp hfr] at hlk
        exact Option.noConfusion hlk
      have hcore : (cfg.realloc s tid addr oldSize newSize sysRet).1.sysLive
            = mapRemove (mapInsert s.sysLive sysRet newSize) addr ∧
          (cfg.realloc s tid addr oldSize newSize sysRet).1.totalRetained
            = (if oldSize < newSize then u64add s.totalRetained (newSize - oldSize)
               else u64sub s.totalRetained (oldSize - newSize)) := by
        by_cases hc : s.inited = true ∧ mapContains s.outstandingAllocs addr = true
        · by_cases hl : (s.tls tid).alloc_locked = true
          · have h := realloc_locked_spec cfg s tid addr oldSize newSize sysRet
              h0 hd hc.1 hc.2 hl
            exact ⟨h.1, h.2.1⟩
          · have hl' : (s.tls tid).alloc_locked = false := by
              simpa using hl
            rcases (mapContains_eq_true _ _).mp hc.2 with ⟨info, hinfo⟩
            have h := realloc_tracked_spec cfg s tid addr oldSize newSize sysRet info
              h0 hd hc.1 hinfo hl'
            exact ⟨h.1, h.2.1⟩
        · have h := realloc_untracked_spec cfg s tid addr oldSize newSize sysRet
            h0 hd hc
          exact ⟨h.1, h.2.1⟩
      have hnodup2 : NodupKeys (mapInsert s.sysLive sysRet newSize) :=
        nodupKeys_mapInsert _ _ _ hI.liveNodup
      have hlk2 : mapLookup (mapInsert s.sysLive sysRet newSize) addr
          = some oldSize := by
        rw [mapLookup_insert, if_neg hne]
        exact hlk
      have hsum2 : sumLive (mapInsert s.sysLive sysRet newSize)
          = newSize + sumLive s.sysLive := sumLive_mapInsert _ _ _ hfr
      have hrm2 := sumLive_mapRemove _ addr oldSize hnodup2 hlk2
      have hold := sumLive_mapRemove s.sysLive addr oldSize hI.liveNodup hlk
      have holdlt : oldSize < U64 := hI.sizes _ (mapLookup_mem _ _ _ hlk)
      show InvC1 (cfg.realloc s tid addr oldSize newSize sysRet).1
      refine ⟨?_, ?_, ?_⟩
      · rw [hcore.1]
        exact nodupKeys_mapRemove _ _ hnodup2
      · rw [hcore.1]
        intro p hp
        rcases (mem_mapInsert _ _ _ _).mp ((mem_mapRemove _ _ _).mp hp).1 with
          rfl | ⟨hpl, _⟩
        · exact hsz
        · exact hI.sizes p hpl
      · rw [hcore.1, hcore.2, hI.total]
        by_cases hlt : oldSize < newSize
        · rw [if_pos hlt, u64add_mod]
          congr 1
          omega
        · rw [if_neg hlt, u64sub_mod _ _ (by omega) (by omega)]
          congr 1
          omega

theorem invC1_run (ops : List Op) : ∀ (cfg : YingProfiler) (s : AllocState),
    InvC1 s → wfFrom cfg s ops = true → okFrom cfg s ops = true →
    InvC1 (run cfg s ops) := by
  induction ops with
  | nil => exact fun cfg s h _ _ => h
  | cons op ops ih =>
      intro cfg s h hw ho
      simp only [wfFrom, Bool.and_eq_true] at hw
      simp only [okFrom, Bool.and_eq_true] at ho
      exact ih cfg (step cfg s op) (invC1_step cfg s op h hw.1 ho.1) hw.2 ho.2

/-- C1: for every well-formed sequence of successful allocate, deallocate and
reallocate operations (each call returns a non-null pointer, frees match live
blocks with their actual layout, fresh pointers are fresh), the global
`TOTAL_RETAINED` counter afterwards equals the sum of the sizes of the
allocations that are still live — whether or not they were sampled.  The
bound hypothesis rules out `usize` wrap-around (a live-byte total of at least
`2^64` cannot occur on a real machine). -/
theorem c1_total_retained (cfg : YingProfiler) (ops : List Op)
    (hw : wfFrom cfg initState ops = true) (ho : okFrom cfg initState ops = true)
    (hb : sumLive (run cfg initState ops).sysLive < U64) :
    (run cfg initState ops).totalRetained
      = sumLive (run cfg initState ops).sysLive := by
  have hbase : InvC1 initState :=
    ⟨by simp [initState, NodupKeys], by simp [initState], by simp [initState, sumLive]⟩
  have h := invC1_run ops cfg initState hbase hw ho
  rw [h.total, Nat.mod_eq_of_lt hb]

/-- Witness for C1: two 512-byte allocations, a free of the first, and a
grow-reallocation of the second. -/
theorem c1_witness :
    (run ⟨5, 1000000⟩ initState
      [Op.allocOp 0 512 1 42 5, Op.allocOp 0 512 2 42 6, Op.deallocOp 0 1 512,
       Op.reallocOp 0 2 512 1024 3]).totalRetained
      = sumLive (run ⟨5, 1000000⟩ initState
      [Op.allocOp 0 512 1 42 5, Op.allocOp 0 512 2 42 6, Op.deallocOp 0 1 512,
       Op.reallocOp 0 2 512 1024 3]).sysLive :=
  c1_total_retained ⟨5, 1000000⟩
    [Op.allocOp 0 512 1 42 5, Op.allocOp 0 512 2 42 6, Op.deallocOp 0 1 512,
     Op.reallocOp 0 2 512 1024 3]
    (by decide) (by decide) (by decide)

/-! ## Claim C8: tracker contents = sampled, still-live allocations -/

theorem invC8_step (cfg : YingProfiler) (s : AllocState) (g : SpecTrack) (op : Op)
    (hI : InvC8 s g) : InvC8 (step cfg s op) (specStep cfg g op) := by
  cases op with
  | allocOp tid size sysRet hash time =>
      show InvC8 (cfg.alloc s tid size sysRet hash time).1 _
      by_cases h0 : sysRet = 0
      · have hres : (cfg.alloc s tid size sysRet hash time).2 = 0 := by
          simp [alloc_result, h0]
        obtain ⟨e1, e2, e3, e4, e5, e6, e7, e8⟩ :=
          alloc_null_spec cfg s tid size sysRet hash time hres
        have hg : specStep cfg g (.allocOp tid size sysRet hash time) = g := by
          simp [specStep, h0]
        rw [hg]
        exact ⟨fun t => by rw [e8 t]; exact hI.flags t,
          fun t => by rw [e8 t]; exact hI.counters t,
          by rw [e5]; exact hI.init,
          by rw [e7]; exact hI.tracker,
          by rw [e5, e7]; exact hI.emptyOfUninit⟩
      · by_cases hd : cfg.single_alloc_limit ≤ size ∧ s.inited = true
        · have hres : (cfg.alloc s tid size sysRet hash time).2 = 0 := by
            rw [alloc_result, if_pos hd]
          obtain ⟨e1, e2, e3, e4, e5, e6, e7, e8⟩ :=
            alloc_null_spec cfg s tid size sysRet hash time hres
          have hd' : cfg.single_alloc_limit ≤ size ∧ g.inited = true := by
            rw [← hI.init]
            exact hd
          have hg : specStep cfg g (.allocOp tid size sysRet hash time) = g := by
            simp [specStep, hd']
          rw [hg]
          exact ⟨fun t => by rw [e8 t]; exact hI.flags t,
            fun t => by rw [e8 t]; exact hI.counters t,
            by rw [e5]; exact hI.init,
            by rw [e7]; exact hI.tracker,
            by rw [e5, e7]; exact hI.emptyOfUninit⟩
        · have hl : (s.tls tid).alloc_locked = false := hI.flags tid
          have hd' : ¬(cfg.single_alloc_limit ≤ size ∧ g.inited = true) := by
            rw [← hI.init]
            exact hd
          have hcnt : g.counters tid = (s.tls tid).sample_count :=
            (hI.counters tid).symm
          by_cases hs : (s.tls tid).sample_count % cfg.sampling_ratio = 0
          · obtain ⟨e1, e2, e3, e4, e5, e6, e7, e8⟩ :=
              alloc_sampled_spec cfg s tid size sysRet hash time h0 hd hl hs
            have hg : specStep cfg g (.allocOp tid size sysRet hash time) =
                { counters := fun t => if t = tid
                    then ((s.tls tid).sample_count + 1) % U32 else g.counters t,
                  inited := true,
                  tracker := mapInsert g.tracker sysRet ⟨hash, time⟩ } := by
              simp [specStep, h0, hd', hcnt, hs]
            rw [hg]
            refine ⟨fun t => by rw [e8 t]; by_cases ht : t = tid <;> simp [ht, hI.flags t],
              fun t => ?_, by rw [e5], ?_, by rw [e5]; simp⟩
            · rw [e8 t]
              by_cases ht : t = tid <;> simp [ht, hI.counters t]
            · rw [e7, hI.tracker]
          · obtain ⟨e1, e2, e3, e4, e5, e6, e7, e8⟩ :=
              alloc_unsampled_spec cfg s tid size sysRet hash time h0 hd hl hs
            have hg : specStep cfg g (.allocOp tid size sysRet hash time) =
                { counters := fun t => if t = tid
                    then ((s.tls tid).sample_count + 1) % U32 else g.counters t,
                  inited := g.inited,
                  tracker := g.tracker } := by
              simp [specStep, h0, hd', hcnt, hs]
            rw [hg]
            refine ⟨fun t => ?_, fun t => ?_,
              by rw [e5]; exact hI.init,
              by rw [e7]; exact hI.tracker,
              by rw [e5, e7]; exact hI.emptyOfUninit⟩
            · rw [e8 t]
              by_cases ht : t = tid <;> simp [ht, hl, hI.flags t]
            · rw [e8 t]
              by_cases ht : t = tid <;> simp [ht, hI.counters t]
  | deallocOp tid addr size =>
      show InvC8 (cfg.dealloc s tid addr size) _
      have hg : specStep cfg g (.deallocOp tid addr size) =
          { g with tracker := mapRemove g.tracker addr } := rfl
      rw [hg]
      by_cases hi : s.inited = true
      · by_cases hc : mapContains s.outstandingAllocs addr = true
        · rcases (mapContains_eq_true _ _).mp hc with ⟨info, hinfo⟩
          obtain ⟨e1, e2, e3, e4, e5, e6, e7, e8⟩ :=
            dealloc_tracked_spec cfg s tid addr size info hi hinfo (hI.flags tid)
          refine ⟨fun t => ?_, fun t => ?_,
            by rw [e5]; exact hI.init,
            by rw [e7, hI.tracker], ?_⟩
          · rw [e8 t]
            by_cases ht : t = tid <;> simp [ht, hI.flags t]
          · rw [e8 t]
            by_cases ht : t = tid <;> simp [ht, hI.counters t, hI.counters tid]
          · rw [e5, hi]
            intro hfalse
            exact absurd hfalse (by simp)
        · obtain ⟨e1, e2, e3, e4, e5, e6, e7, e8⟩ :=
            dealloc_skip_spec cfg s tid addr size (Or.inr (by simpa using hc))
          have hrm : mapRemove g.tracker addr = g.tracker := by
            apply mapRemove_eq_self
            rw [← hI.tracker]
            simpa using hc
          refine ⟨fun t => by rw [e8 t]; exact hI.flags t,
            fun t => by rw [e8 t]; exact hI.counters t,
            by rw [e5]; exact hI.init,
            by rw [e7, hrm]; exact hI.tracker,
            by rw [e5, e7]; intro hf; exact hI.emptyOfUninit hf⟩
      · have hi' : s.inited = false := by simpa using hi
        obtain ⟨e1, e2, e3, e4, e5, e6, e7, e8⟩ :=
          dealloc_skip_spec cfg s tid addr size (Or.inl hi')
        have hemp : s.outstandingAllocs = [] := hI.emptyOfUninit hi'
        have hrm : mapRemove g.tracker addr = g.tracker := by
          rw [← hI.tracker, hemp]
          rfl
        refine ⟨fun t => by rw [e8 t]; exact hI.flags t,
          fun t => by rw [e8 t]; exact hI.counters t,
          by rw [e5]; exact hI.init,
          by rw [e7, hrm]; exact hI.tracker,
          by rw [e5, e7]; intro hf; exact hI.emptyOfUninit hf⟩
  | reallocOp tid addr oldSize newSize sysRet =>
      show InvC8 (cfg.realloc s tid addr oldSize newSize sysRet).1 _
      by_cases h0 : sysRet = 0
      · have hres : (cfg.realloc s tid addr oldSize newSize sysRet).2 = 0 := by
          simp [realloc_result, h0]
        obtain ⟨e1, e2, e3, e4, e5, e6, e7, e8⟩ :=
          realloc_null_spec cfg s tid addr oldSize newSize sysRet hres
        have hg : specStep cfg g (.reallocOp tid addr oldSize newSize sysRet) = g := by
          simp [specStep, h0]
        rw [hg]
        exact ⟨fun t => by rw [e8 t]; exact hI.flags t,
          fun t => by rw [e8 t]; exact hI.counters t,
          by rw [e5]; exact hI.init,
          by rw [e7]; exact hI.tracker,
          by rw [e5, e7]; exact hI.emptyOfUninit⟩
      · by_cases hd : cfg.single_alloc_limit ≤ newSize ∧ s.inited = true
        · have hres : (cfg.realloc s tid addr oldSize newSize sysRet).2 = 0 := by
            rw [realloc_result, if_pos hd]
          obtain ⟨e1, e2, e3, e4, e5, e6, e7, e8⟩ :=
            realloc_null_spec cfg s tid addr oldSize newSize sysRet hres
          have hd' : cfg.single_alloc_limit ≤ newSize ∧ g.inited = true := by
            rw [← hI.init]
            exact hd
          have hg : specStep cfg g (.reallocOp tid addr oldSize newSize sysRet)
              = g := by
            simp [specStep, hd']
          rw [hg]
          exact ⟨fun t => by rw [e8 t]; exact hI.flags t,
            fun t => by rw [e8 t]; exact hI.counters t,
            by rw [e5]; exact hI.init,
            by rw [e7]; exact hI.tracker,
            by rw [e5, e7]; exact hI.emptyOfUninit⟩
        · have hd' : ¬(cfg.single_alloc_limit ≤ newSize ∧ g.inited = true) := by
            rw [← hI.init]
            exact hd
          cases hlk : mapLookup s.outstandingAllocs addr with
          | none =>
              have hnc : ¬(s.inited = true ∧
                  mapContains s.outstandingAllocs addr = true) := by
                rintro ⟨_, hc⟩
                rw [(mapContains_eq_true _ _).mp hc |>.choose_spec] at hlk
                exact Option.noConfusion hlk
              obtain ⟨e1, e2, e3, e4, e5, e6, e7, e8⟩ :=
                realloc_untracked_spec cfg s tid addr oldSize newSize sysRet h0 hd hnc
              have hglk : mapLookup g.tracker addr = none := by
                rw [← hI.tracker]
                exact hlk
              have hg : specStep cfg g (.reallocOp tid addr oldSize newSize sysRet)
                  = g := by
                simp [specStep, h0, hd', hglk]
              rw [hg]
              exact ⟨fun t => by rw [e8 t]; exact hI.flags t,
                fun t => by rw [e8 t]; exact hI.counters t,
                by rw [e5]; exact hI.init,
                by rw [e7]; exact hI.tracker,
                by rw [e5, e7]; exact hI.emptyOfUninit⟩
          | some info =>
              have hi : s.inited = true := by
                by_contra hi
                have hi' : s.inited = false := by simpa using hi
                rw [hI.emptyOfUninit hi'] at hlk
                exact Option.noConfusion hlk
              obtain ⟨e1, e2, e3, e4, e5, e6, e7, e8⟩ :=
                realloc_tracked_spec cfg s tid addr oldSize newSize sysRet info
                  h0 hd hi hlk (hI.flags tid)
              have hglk : mapLookup g.tracker addr = some info := by
                rw [← hI.tracker]
                exact hlk
              have hg : specStep cfg g (.reallocOp tid addr oldSize newSize sysRet)
                  = { g with tracker :=
                        mapInsert (mapRemove g.tracker addr) sysRet info } := by
                simp [specStep, h0, hd', hglk]
              rw [hg]
              refine ⟨fun t => ?_, fun t => ?_,
                by rw [e5]; exact hI.init,
                by rw [e7, hI.tracker], ?_⟩
              · rw [e8 t]
                by_cases ht : t = tid <;> simp [ht, hI.flags t]
              · rw [e8 t]
                by_cases ht : t = tid <;> simp [ht, hI.counters t, hI.counters tid]
              · rw [e5, hi]
                intro hfalse
                exact absurd hfalse (by simp)

theorem invC8_run (ops : List Op) : ∀ (cfg : YingProfiler) (s : AllocState)
    (g : SpecTrack), InvC8 s g → InvC8 (run cfg s ops) (specRun cfg g ops) := by
  induction ops with
  | nil => exact fun cfg s g h => h
  | cons op ops ih =>
      intro cfg s g h
      exact ih cfg (step cfg s op) (specStep cfg g op) (invC8_step cfg s g op h)

/-- C8: at every reachable state — i.e. after every sequence of top-level
interceptor calls from the process-start state — an entry exists in the
outstanding-allocation tracker for an address exactly when, per the spec-side
characterization `specStep`/`specRun`, that address was returned by a sampled
allocation that has not yet been freed or moved away by a reallocation; the
stored `AllocInfo` agrees as well. -/
theorem c8_tracker (cfg : YingProfiler) (ops : List Op) (addr : Nat) :
    mapLookup (run cfg initState ops).outstandingAllocs addr
      = mapLookup (specRun cfg specInit ops).tracker addr := by
  have hbase : InvC8 initState specInit :=
    ⟨fun t => rfl, fun t => rfl, rfl, rfl, fun _ => rfl⟩
  rw [(invC8_run ops cfg initState specInit hbase).tracker]

/-! ## Claim C7: per-stack `freed_bytes ≤ allocated_bytes` -/

theorem invC7_mono (s : AllocState) (V V' : Nat) (h : InvC7 s V) (hVV : V ≤ V') :
    InvC7 s V' :=
  ⟨h.flags, h.liveNodup, h.trackNodup, h.trackLive, h.trackStats,
    fun hh st hst => ⟨(h.statsInv hh st hst).1,
      le_trans (h.statsInv hh st hst).2 hVV⟩, h.uninit⟩

theorem keys_ne_of_fresh (tracker : List (Nat × AllocInfo)) (live : List (Nat × Nat))
    (r : Nat) (htr : ∀ p ∈ tracker, (mapLookup live p.1).isSome = true)
    (hfr : mapContains live r = false) : ∀ p ∈ tracker, p.1 ≠ r := by
  intro p hp he
  have hs := htr p hp
  rw [he, (mapContains_eq_false _ _).mp hfr] at hs
  simp at hs

theorem invC7_step (cfg : YingProfiler) (s : AllocState) (V : Nat) (op : Op)
    (hI : InvC7 s V) (hw : wfOp cfg s op = true)
    (hbound : V + opVolume op < U64) :
    InvC7 (step cfg s op) (V + opVolume op) := by
  cases op with
  | allocOp tid size sysRet hash time =>
      simp only [wfOp, Bool.and_eq_true, Bool.or_eq_true, decide_eq_true_eq,
        beq_iff_eq, Bool.not_eq_true'] at hw
      obtain ⟨hsz, hfresh⟩ := hw
      simp only [opVolume] at hbound ⊢
      show InvC7 (cfg.alloc s tid size sysRet hash time).1 (V + size)
      by_cases h0 : sysRet = 0
      · have hres : (cfg.alloc s tid size sysRet hash time).2 = 0 := by
          simp [alloc_result, h0]
        obtain ⟨e1, e2, e3, e4, e5, e6, e7, e8⟩ :=
          alloc_null_spec cfg s tid size sysRet hash time hres
        rw [if_neg (by simpa using h0)] at e1
        refine invC7_mono _ V _ ?_ (Nat.le_add_right V size)
        exact ⟨fun t => by rw [e8 t]; exact hI.flags t,
          by rw [e1]; exact hI.liveNodup,
          by rw [e7]; exact hI.trackNodup,
          by rw [e7, e1]; exact hI.trackLive,
          by rw [e7, e6]; exact hI.trackStats,
          by rw [e6]
             intro hh st hst
             have := hI.statsInv hh st hst
             rw [trackedBytes, e7, e1]
             exact this,
          by rw [e5, e6, e7]; exact hI.uninit⟩
      · have hfr : mapContains s.sysLive sysRet = false := by
          rcases hfresh with h | h
          · exact absurd h h0
          · exact h
        have hkeys : ∀ p ∈ s.outstandingAllocs, p.1 ≠ sysRet :=
          keys_ne_of_fresh _ _ _ hI.trackLive hfr
        have hlook : ∀ p ∈ s.outstandingAllocs,
            mapLookup (mapInsert s.sysLive sysRet size) p.1
              = mapLookup s.sysLive p.1 := by
          intro p hp
          rw [mapLookup_insert, if_neg (hkeys p hp)]
        -- common obligations for the branches that only extend `sysLive`
        have hframe : ∀ hres₂ :
            (cfg.alloc s tid size sysRet hash time).1.sysLive
                = mapInsert s.sysLive sysRet size ∧
              (cfg.alloc s tid size sysRet hash time).1.inited = s.inited ∧
              (cfg.alloc s tid size sysRet hash time).1.stackStats = s.stackStats ∧
              (cfg.alloc s tid size sysRet hash time).1.outstandingAllocs
                = s.outstandingAllocs,
            (∀ t, (cfg.alloc s tid size sysRet hash time).1.tls t
                = (cfg.alloc s tid size sysRet hash time).1.tls t) →
            (∀ t, ((cfg.alloc s tid size sysRet hash time).1.tls t).alloc_locked
                = false) →
            InvC7 (cfg.alloc s tid size sysRet hash time).1 (V + size) := by
          rintro ⟨f1, f5, f6, f7⟩ _ hflags
          refine invC7_mono _ V _ ?_ (Nat.le_add_right V size)
          refine ⟨hflags, ?_, ?_, ?_, ?_, ?_, ?_⟩
          · rw [f1]
            exact nodupKeys_mapInsert _ _ _ hI.liveNodup
          · rw [f7]
            exact hI.trackNodup
          · rw [f7, f1]
            intro p hp
            rw [hlook p hp]
            exact hI.trackLive p hp
          · rw [f7, f6]
            exact hI.trackStats
          · rw [f6]
            intro hh st hst
            have hold := hI.statsInv hh st hst
            rw [trackedBytes, f7, f1, tbAux_congr_live _ _ _ _ hlook]
            exact hold
          · rw [f5, f6, f7]
            exact hI.uninit
        by_cases hd : cfg.single_alloc_limit ≤ size ∧ s.inited = true
        · have hres : (cfg.alloc s tid size sysRet hash time).2 = 0 := by
            rw [alloc_result, if_pos hd]
          obtain ⟨e1, e2, e3, e4, e5, e6, e7, e8⟩ :=
            alloc_null_spec cfg s tid size sysRet hash time hres
          rw [if_pos h0] at e1
          exact hframe ⟨e1, e5, e6, e7⟩ (fun t => rfl)
            (fun t => by rw [e8 t]; exact hI.flags t)
        · have hl : (s.tls tid).alloc_locked = false := hI.flags tid
          by_cases hs : (s.tls tid).sample_count % cfg.sampling_ratio = 0
          · -- the sampled path: stats upsert + tracker insert
            obtain ⟨e1, e2, e3, e4, e5, e6, e7, e8⟩ :=
              alloc_sampled_spec cfg s tid size sysRet hash time h0 hd hl hs
            have hctr : mapContains s.outstandingAllocs sysRet = false := by
              apply mapContains_false_of_not_mem_keys
              intro hmem
              rcases List.mem_map.mp hmem with ⟨p, hp, hpk⟩
              exact hkeys p hp hpk
            have htr' : (cfg.alloc s tid size sysRet hash time).1.outstandingAllocs
                = (sysRet, ⟨hash, time⟩) :: s.outstandingAllocs := by
              rw [e7, mapInsert, mapRemove_eq_self _ _ hctr]
            have hTB : ∀ hh, tbAux ((sysRet, (⟨hash, time⟩ : AllocInfo))
                  :: s.outstandingAllocs) (mapInsert s.sysLive sysRet size) hh
                = (if hash = hh then size else 0) + trackedBytes s hh := by
              intro hh
              rw [tbAux_cons, tbAux_congr_live _ _ _ _ hlook,
                mapLookup_insert, if_pos rfl]
              rfl
            refine ⟨fun t => by rw [e8 t]; by_cases ht : t = tid <;> simp [ht, hI.flags t],
              ?_, ?_, ?_, ?_, ?_, ?_⟩
            · rw [e1]
              exact nodupKeys_mapInsert _ _ _ hI.liveNodup
            · rw [e7]
              exact nodupKeys_mapInsert _ _ _ hI.trackNodup
            · rw [htr', e1]
              intro p hp
              rcases List.mem_cons.mp hp with rfl | hp'
              · rw [mapLookup_insert, if_pos rfl]
                rfl
              · rw [hlook p hp']
                exact hI.trackLive p hp'
            · rw [htr', e6]
              intro p hp
              cases hsh : mapLookup s.stackStats hash with
              | some st0 =>
                  rcases List.mem_cons.mp hp with rfl | hp'
                  · rw [mapLookup_adjust, if_pos rfl, hsh]
                    rfl
                  · rw [mapLookup_adjust]
                    by_cases hph : p.2.stack_hash = hash
                    · rw [if_pos hph, hsh]
                      rfl
                    · rw [if_neg hph]
                      exact hI.trackStats p hp'
              | none =>
                  rcases List.mem_cons.mp hp with rfl | hp'
                  · rw [mapLookup_insert, if_pos rfl]
                    rfl
                  · rw [mapLookup_insert]
                    by_cases hph : p.2.stack_hash = hash
                    · rw [if_pos hph]
                      rfl
                    · rw [if_neg hph]
                      exact hI.trackStats p hp'
            · rw [e6]
              intro hh st hst
              rw [trackedBytes, htr', e1, hTB hh]
              cases hsh : mapLookup s.stackStats hash with
              | some st0 =>
                  rw [hsh] at hst
                  rw [mapLookup_adjust] at hst
                  obtain ⟨hIa, hIb⟩ := hI.statsInv hash st0 hsh
                  by_cases hph : hh = hash
                  · subst hph
                    rw [if_pos rfl, hsh] at hst
                    have hst' : st = { st0 with
                        num_allocations := u64add st0.num_allocations 1,
                        allocated_bytes := u64add st0.allocated_bytes size } := by
                      exact (Option.some.inj hst).symm
                    have hadd : u64add st0.allocated_bytes size
                        = st0.allocated_bytes + size :=
                      u64add_eq _ _ (by omega)
                    rw [hst']
                    constructor
                    · dsimp only
                      rw [if_pos rfl, hadd]
                      omega
                    · dsimp only
                      rw [hadd]
                      omega
                  · rw [if_neg hph] at hst
                    have := hI.statsInv hh st hst
                    rw [if_neg (fun he => hph he.symm)]
                    constructor
                    · omega
                    · omega
              | none =>
                  rw [hsh] at hst
                  rw [mapLookup_insert] at hst
                  by_cases hph : hh = hash
                  · subst hph
                    rw [if_pos rfl] at hst
                    have hst' : st = StackStats.new size :=
                      (Option.some.inj hst).symm
                    have hTB0 : trackedBytes s hh = 0 := by
                      apply tbAux_zero
                      intro p hp hph2
                      have hps := hI.trackStats p hp
                      rw [hph2, hsh] at hps
                      simp at hps
                    rw [hst', hTB0, if_pos rfl]
                    constructor
                    · simp [StackStats.new]
                    · simp [StackStats.new]
                  · rw [if_neg hph] at hst
                    have := hI.statsInv hh st hst
                    rw [if_neg (fun he => hph he.symm)]
                    constructor
                    · omega
                    · omega
            · rw [e5]
              intro hfalse
              exact absurd hfalse (by simp)
          · obtain ⟨e1, e2, e3, e4, e5, e6, e7, e8⟩ :=
              alloc_unsampled_spec cfg s tid size sysRet hash time h0 hd hl hs
            exact hframe ⟨e1, e5, e6, e7⟩ (fun t => rfl)
              (fun t => by
                rw [e8 t]
                by_cases ht : t = tid <;> simp [ht, hl, hI.flags t])
  | deallocOp tid addr size =>
      simp only [wfOp, beq_iff_eq] at hw
      simp only [opVolume] at hbound ⊢
      show InvC7 (cfg.dealloc s tid addr size) (V + 0)
      rw [Nat.add_zero] at hbound ⊢
      by_cases hi : s.inited = true
      · by_cases hc : mapContains s.outstandingAllocs addr = true
        · rcases (mapContains_eq_true _ _).mp hc with ⟨info, hinfo⟩
          obtain ⟨e1, e2, e3, e4, e5, e6, e7, e8⟩ :=
            dealloc_tracked_spec cfg s tid addr size info hi hinfo (hI.flags tid)
          have hmem : (addr, info) ∈ s.outstandingAllocs := mapLookup_mem _ _ _ hinfo
          rcases Option.isSome_iff_exists.mp (hI.trackStats _ hmem) with ⟨st0, hstat00⟩
          have hstat0 : mapLookup s.stackStats info.stack_hash = some st0 := hstat00
          have hlookrm : ∀ p ∈ mapRemove s.outstandingAllocs addr,
              mapLookup (mapRemove s.sysLive addr) p.1 = mapLookup s.sysLive p.1 := by
            intro p hp
            rw [mapLookup_remove, if_neg ((mem_mapRemove _ _ _).mp hp).2]
          have hrmTB := fun hh => tbAux_mapRemove s.outstandingAllocs s.sysLive addr
            info hh hI.trackNodup hinfo
          have hle : size ≤ trackedBytes s info.stack_hash :=
            tbAux_le s.outstandingAllocs s.sysLive addr size info
              info.stack_hash hinfo hw rfl
          refine ⟨fun t => by rw [e8 t]; by_cases ht : t = tid <;> simp [ht, hI.flags t],
            ?_, ?_, ?_, ?_, ?_, ?_⟩
          · rw [e1]
            exact nodupKeys_mapRemove _ _ hI.liveNodup
          · rw [e7]
            exact nodupKeys_mapRemove _ _ hI.trackNodup
          · rw [e7, e1]
            intro p hp
            rw [hlookrm p hp]
            exact hI.trackLive p ((mem_mapRemove _ _ _).mp hp).1
          · rw [e7, e6]
            intro p hp
            rw [mapLookup_adjust]
            by_cases hph : p.2.stack_hash = info.stack_hash
            · rw [if_pos hph, hstat0]
              rfl
            · rw [if_neg hph]
              exact hI.trackStats p ((mem_mapRemove _ _ _).mp hp).1
          · rw [e6]
            intro hh st hst
            rw [mapLookup_adjust] at hst
            have hTBrw : trackedBytes (cfg.dealloc s tid addr size) hh
                = trackedBytes s hh - (if info.stack_hash = hh then size else 0) := by
              rw [trackedBytes, e7, e1,
                tbAux_congr_live _ _ _ _ hlookrm]
              have heq := hrmTB hh
              rw [hw] at heq
              simp only [Option.getD_some] at heq
              rw [show trackedBytes s hh = tbAux s.outstandingAllocs s.sysLive hh from rfl]
              omega
            rw [hTBrw]
            by_cases hph : hh = info.stack_hash
            · subst hph
              rw [if_pos rfl, hstat0] at hst
              obtain ⟨hIa, hIb⟩ := hI.statsInv info.stack_hash st0 hstat0
              have hite : (if info.stack_hash = info.stack_hash then size else 0)
                  = size := if_pos rfl
              have hst' : st = { st0 with
                  freed_bytes := u64add st0.freed_bytes size,
                  num_frees := u64add st0.num_frees 1 } :=
                (Option.some.inj hst).symm
              have hfadd : u64add st0.freed_bytes size = st0.freed_bytes + size :=
                u64add_eq _ _ (by omega)
              rw [hst']
              constructor
              · dsimp only
                rw [hite, hfadd]
                omega
              · dsimp only
                omega
            · rw [if_neg hph] at hst
              have := hI.statsInv hh st hst
              rw [if_neg (fun he => hph he.symm)]
              constructor
              · omega
              · omega
          · rw [e5, hi]
            intro hfalse
            exact absurd hfalse (by simp)
        · obtain ⟨e1, e2, e3, e4, e5, e6, e7, e8⟩ :=
            dealloc_skip_spec cfg s tid addr size (Or.inr (by simpa using hc))
          have hlookrm : ∀ p ∈ s.outstandingAllocs,
              mapLookup (mapRemove s.sysLive addr) p.1 = mapLookup s.sysLive p.1 := by
            intro p hp
            have hne : p.1 ≠ addr := by
              intro he
              have hsome := mapLookup_isSome_of_mem _ p hp
              rw [he] at hsome
              exact hc hsome
            rw [mapLookup_remove, if_neg hne]
          refine ⟨fun t => by rw [e8 t]; exact hI.flags t, ?_, ?_, ?_, ?_, ?_, ?_⟩
          · rw [e1]
            exact nodupKeys_mapRemove _ _ hI.liveNodup
          · rw [e7]
            exact hI.trackNodup
          · rw [e7, e1]
            intro p hp
            rw [hlookrm p hp]
            exact hI.trackLive p hp
          · rw [e7, e6]
            exact hI.trackStats
          · rw [e6]
            intro hh st hst
            rw [trackedBytes, e7, e1, tbAux_congr_live _ _ _ _ hlookrm]
            exact hI.statsInv hh st hst
          · rw [e5, e6, e7]
            exact hI.uninit
      · have hi' : s.inited = false := by simpa using hi
        obtain ⟨e1, e2, e3, e4, e5, e6, e7, e8⟩ :=
          dealloc_skip_spec cfg s tid addr size (Or.inl hi')
        obtain ⟨hemp1, hemp2⟩ := hI.uninit hi'
        refine ⟨fun t => by rw [e8 t]; exact hI.flags t, ?_, ?_, ?_, ?_, ?_, ?_⟩
        · rw [e1]
          exact nodupKeys_mapRemove _ _ hI.liveNodup
        · rw [e7, hemp2]
          exact nodupKeys_nil
        · rw [e7, hemp2]
          intro p hp
          simp at hp
        · rw [e7, hemp2]
          intro p hp
          simp at hp
        · rw [e6, hemp1]
          intro hh st hst
          simp [mapLookup] at hst
        · rw [e5, e6, e7]
          exact hI.uninit
  | reallocOp tid addr oldSize newSize sysRet =>
      simp only [wfOp, Bool.and_eq_true, Bool.or_eq_true, decide_eq_true_eq,
        beq_iff_eq, Bool.not_eq_true'] at hw
      obtain ⟨⟨hlk, hsz⟩, hfresh⟩ := hw
      simp only [opVolume] at hbound ⊢
      show InvC7 (cfg.realloc s tid addr oldSize newSize sysRet).1 (V + newSize)
      by_cases h0 : sysRet = 0
      · have hres : (cfg.realloc s tid addr oldSize newSize sysRet).2 = 0 := by
          simp [realloc_result, h0]
        obtain ⟨e1, e2, e3, e4, e5, e6, e7, e8⟩ :=
          realloc_null_spec cfg s tid addr oldSize newSize sysRet hres
        rw [if_neg (by simpa using h0)] at e1
        refine invC7_mono _ V _ ?_ (Nat.le_add_right V newSize)
        exact ⟨fun t => by rw [e8 t]; exact hI.flags t,
          by rw [e1]; exact hI.liveNodup,
          by rw [e7]; exact hI.trackNodup,
          by rw [e7, e1]; exact hI.trackLive,
          by rw [e7, e6]; exact hI.trackStats,
          by rw [e6]
             intro hh st hst
             have := hI.statsInv hh st hst
             rw [trackedBytes, e7, e1]
             exact this,
          by rw [e5, e6, e7]; exact hI.uninit⟩
      · have hfr : mapContains s.sysLive sysRet = false := by
          rcases hfresh with h | h
          · exact absurd h h0
          · exact h
        have hkeys : ∀ p ∈ s.outstandingAllocs, p.1 ≠ sysRet :=
          keys_ne_of_fresh _ _ _ hI.trackLive hfr
        have hne : addr ≠ sysRet := by
          intro he
          have h1 : mapLookup s.sysLive sysRet = none :=
            (mapContains_eq_false _ _).mp hfr
          rw [he, h1] at hlk
          exact Option.noConfusion hlk
        by_cases hd : cfg.single_alloc_limit ≤ newSize ∧ s.inited = true
        · have hres : (cfg.realloc s tid addr oldSize newSize sysRet).2 = 0 := by
            rw [realloc_result, if_pos hd]
          obtain ⟨e1, e2, e3, e4, e5, e6, e7, e8⟩ :=
            realloc_null_spec cfg s tid addr oldSize newSize sysRet hres
          rw [if_pos h0] at e1
          have hlook : ∀ p ∈ s.outstandingAllocs,
              mapLookup (mapInsert s.sysLive sysRet newSize) p.1
                = mapLookup s.sysLive p.1 := by
            intro p hp
            rw [mapLookup_insert, if_neg (hkeys p hp)]
          refine invC7_mono _ V _ ?_ (Nat.le_add_right V newSize)
          refine ⟨fun t => by rw [e8 t]; exact hI.flags t, ?_, ?_, ?_, ?_, ?_, ?_⟩
          · rw [e1]
            exact nodupKeys_mapInsert _ _ _ hI.liveNodup
          · rw [e7]
            exact hI.trackNodup
          · rw [e7, e1]
            intro p hp
            rw [hlook p hp]
            exact hI.trackLive p hp
          · rw [e7, e6]
            exact hI.trackStats
          · rw [e6]
            intro hh st hst
            rw [trackedBytes, e7, e1, tbAux_congr_live _ _ _ _ hlook]
            exact hI.statsInv hh st hst
          · rw [e5, e6, e7]
            exact hI.uninit
        · cases hlk2 : mapLookup s.outstandingAllocs addr with
          | none =>
              have hnc : ¬(s.inited = true ∧
                  mapContains s.outstandingAllocs addr = true) := by
                rintro ⟨_, hc⟩
                rcases (mapContains_eq_true _ _).mp hc with ⟨v, hv⟩
                rw [hv] at hlk2
                exact Option.noConfusion hlk2
              obtain ⟨e1, e2, e3, e4, e5, e6, e7, e8⟩ :=
                realloc_untracked_spec cfg s tid addr oldSize newSize sysRet h0 hd hnc
              have hlook : ∀ p ∈ s.outstandingAllocs,
                  mapLookup (mapRemove (mapInsert s.sysLive sysRet newSize) addr) p.1
                    = mapLookup s.sysLive p.1 := by
                intro p hp
                have hpa : p.1 ≠ addr := by
                  intro he
                  have := mapLookup_isSome_of_mem _ p hp
                  rw [he, hlk2] at this
                  simp at this
                rw [mapLookup_remove, if_neg hpa, mapLookup_insert,
                  if_neg (hkeys p hp)]
              refine invC7_mono _ V _ ?_ (Nat.le_add_right V newSize)
              refine ⟨fun t => by rw [e8 t]; exact hI.flags t, ?_, ?_, ?_, ?_, ?_, ?_⟩
              · rw [e1]
                exact nodupKeys_mapRemove _ _ (nodupKeys_mapInsert _ _ _ hI.liveNodup)
              · rw [e7]
                exact hI.trackNodup
              · rw [e7, e1]
                intro p hp
                rw [hlook p hp]
                exact hI.trackLive p hp
              · rw [e7, e6]
                exact hI.trackStats
              · rw [e6]
                intro hh st hst
                rw [trackedBytes, e7, e1, tbAux_congr_live _ _ _ _ hlook]
                exact hI.statsInv hh st hst
              · rw [e5, e6, e7]
                exact hI.uninit
          | some info =>
              have hi : s.inited = true := by
                by_contra hi
                have hi' : s.inited = false := by simpa using hi
                rw [(hI.uninit hi').2] at hlk2
                exact Option.noConfusion hlk2
              obtain ⟨e1, e2, e3, e4, e5, e6, e7, e8⟩ :=
                realloc_tracked_spec cfg s tid addr oldSize newSize sysRet info
                  h0 hd hi hlk2 (hI.flags tid)
              have hmem : (addr, info) ∈ s.outstandingAllocs :=
                mapLookup_mem _ _ _ hlk2
              rcases Option.isSome_iff_exists.mp (hI.trackStats _ hmem) with
                ⟨st0, hstat00⟩
              have hstat0 : mapLookup s.stackStats info.stack_hash = some st0 :=
                hstat00
              have hctr : mapContains (mapRemove s.outstandingAllocs addr) sysRet
                  = false := by
                apply mapContains_false_of_not_mem_keys
                intro hmem2
                rcases List.mem_map.mp hmem2 with ⟨p, hp, hpk⟩
                exact hkeys p ((mem_mapRemove _ _ _).mp hp).1 hpk
              have htr' : (cfg.realloc s tid addr oldSize newSize sysRet).1.outstandingAllocs
                  = (sysRet, info) :: mapRemove s.outstandingAllocs addr := by
                rw [e7, mapInsert, mapRemove_eq_self _ _ hctr]
              have hlookrm : ∀ p ∈ mapRemove s.outstandingAllocs addr,
                  mapLookup (mapRemove (mapInsert s.sysLive sysRet newSize) addr) p.1
                    = mapLookup s.sysLive p.1 := by
                intro p hp
                rw [mapLookup_remove, if_neg ((mem_mapRemove _ _ _).mp hp).2,
                  mapLookup_insert, if_neg (hkeys p ((mem_mapRemove _ _ _).mp hp).1)]
              have hnewlook : mapLookup
                  (mapRemove (mapInsert s.sysLive sysRet newSize) addr) sysRet
                  = some newSize := by
                rw [mapLookup_remove, if_neg (fun he => hne he.symm),
                  mapLookup_insert, if_pos rfl]
              have hrmTB := fun hh => tbAux_mapRemove s.outstandingAllocs s.sysLive
                addr info hh hI.trackNodup hlk2
              have hle : oldSize ≤ trackedBytes s info.stack_hash :=
                tbAux_le s.outstandingAllocs s.sysLive addr oldSize info
                  info.stack_hash hlk2 hlk rfl
              have hTBrw : ∀ hh,
                  trackedBytes (cfg.realloc s tid addr oldSize newSize sysRet).1 hh
                  = (if info.stack_hash = hh then newSize else 0) +
                    (trackedBytes s hh - (if info.stack_hash = hh then oldSize else 0)) := by
                intro hh
                rw [trackedBytes, htr', e1, tbAux_cons,
                  tbAux_congr_live _ _ _ _ hlookrm, hnewlook]
                have heq := hrmTB hh
                rw [hlk] at heq
                simp only [Option.getD_some] at heq
                have hsub : tbAux (mapRemove s.outstandingAllocs addr) s.sysLive hh
                    = trackedBytes s hh - (if info.stack_hash = hh then oldSize else 0) := by
                  rw [show trackedBytes s hh
                      = tbAux s.outstandingAllocs s.sysLive hh from rfl]
                  omega
                rw [hsub]
                by_cases hph : info.stack_hash = hh <;> simp [hph]
              refine ⟨fun t => by rw [e8 t]; by_cases ht : t = tid <;>
                  simp [ht, hI.flags t], ?_, ?_, ?_, ?_, ?_, ?_⟩
              · rw [e1]
                exact nodupKeys_mapRemove _ _ (nodupKeys_mapInsert _ _ _ hI.liveNodup)
              · rw [e7]
                exact nodupKeys_mapInsert _ _ _ (nodupKeys_mapRemove _ _ hI.trackNodup)
              · rw [htr', e1]
                intro p hp
                rcases List.mem_cons.mp hp with rfl | hp'
                · rw [hnewlook]
                  rfl
                · rw [hlookrm p hp']
                  exact hI.trackLive p ((mem_mapRemove _ _ _).mp hp').1
              · rw [htr', e6]
                intro p hp
                rw [mapLookup_adjust]
                rcases List.mem_cons.mp hp with rfl | hp'
                · rw [if_pos rfl, hstat0]
                  rfl
                · by_cases hph : p.2.stack_hash = info.stack_hash
                  · rw [if_pos hph, hstat0]
                    rfl
                  · rw [if_neg hph]
                    exact hI.trackStats p ((mem_mapRemove _ _ _).mp hp').1
              · rw [e6]
                intro hh st hst
                rw [mapLookup_adjust] at hst
                rw [hTBrw hh]
                by_cases hph : hh = info.stack_hash
                · subst hph
                  rw [if_pos rfl, hstat0] at hst
                  obtain ⟨hIa, hIb⟩ := hI.statsInv info.stack_hash st0 hstat0
                  have hiteN : (if info.stack_hash = info.stack_hash
                      then newSize else 0) = newSize := if_pos rfl
                  have hiteO : (if info.stack_hash = info.stack_hash
                      then oldSize else 0) = oldSize := if_pos rfl
                  have hst' : st = { st0 with allocated_bytes :=
                      (if oldSize < newSize then
                        u64add st0.allocated_bytes (newSize - oldSize)
                      else u64sub st0.allocated_bytes (oldSize - newSize)) } :=
                    (Option.some.inj hst).symm
                  rw [hst']
                  constructor
                  · dsimp only
                    rw [hiteN, hiteO]
                    by_cases hlt : oldSize < newSize
                    · rw [if_pos hlt, u64add_eq _ _ (by omega)]
                      omega
                    · rw [if_neg hlt, u64sub_eq _ _ (by omega) (by omega)]
                      omega
                  · dsimp only
                    by_cases hlt : oldSize < newSize
                    · rw [if_pos hlt, u64add_eq _ _ (by omega)]
                      omega
                    · rw [if_neg hlt, u64sub_eq _ _ (by omega) (by omega)]
                      omega
                · rw [if_neg hph] at hst
                  have := hI.statsInv hh st hst
                  have hiteN : (if info.stack_hash = hh then newSize else 0) = 0 :=
                    if_neg (fun he => hph he.symm)
                  have hiteO : (if info.stack_hash = hh then oldSize else 0) = 0 :=
                    if_neg (fun he => hph he.symm)
                  rw [hiteN, hiteO]
                  constructor
                  · omega
                  · omega
              · rw [e5, hi]
                intro hfalse
                exact absurd hfalse (by simp)

theorem invC7_run (ops : List Op) : ∀ (cfg : YingProfiler) (s : AllocState) (V : Nat),
    InvC7 s V → wfFrom cfg s ops = true → V + totalVolume ops < U64 →
    InvC7 (run cfg s ops) (V + totalVolume ops) := by
  induction ops with
  | nil =>
      intro cfg s V h _ _
      simpa [totalVolume] using h
  | cons op ops ih =>
      intro cfg s V h hw hb
      simp only [wfFrom, Bool.and_eq_true] at hw
      have hvol : totalVolume (op :: ops) = opVolume op + totalVolume ops := by
        simp [totalVolume]
      rw [hvol] at hb ⊢
      have hstep := invC7_step cfg s V op h hw.1 (by omega)
      have := ih cfg (step cfg s op) (V + opVolume op) hstep hw.2 (by omega)
      have harr : V + opVolume op + totalVolume ops
          = V + (opVolume op + totalVolume ops) := by omega
      rw [harr] at this
      exact this

/-- C7: for any stack hash present in the statistics store, at the end of any
well-formed sequence of allocate/deallocate/reallocate calls (each free or
realloc matching a prior live allocation with its actual layout, fresh
pointers fresh) — and hence at every observation point, since every prefix of
a well-formed trace is again a well-formed trace — the entry's `freed_bytes`
is at most its `allocated_bytes`, so retained bytes (allocated − freed) are
non-negative.  The volume bound rules out `u64` counter wrap-around. -/
theorem c7_freed_le_allocated (cfg : YingProfiler) (ops : List Op)
    (h : Nat) (st : StackStats)
    (hw : wfFrom cfg initState ops = true) (hb : totalVolume ops < U64)
    (hst : mapLookup (run cfg initState ops).stackStats h = some st) :
    st.freed_bytes ≤ st.allocated_bytes := by
  have hbase : InvC7 initState 0 := by
    refine ⟨fun t => rfl, by simp [initState, NodupKeys], by simp [initState, NodupKeys],
      ?_, ?_, ?_, fun _ => ⟨rfl, rfl⟩⟩
    · intro p hp
      simp [initState] at hp
    · intro p hp
      simp [initState] at hp
    · intro hh st0 hst0
      simp [initState, mapLookup] at hst0
  have hrun := invC7_run ops cfg initState 0 hbase hw (by simpa using hb)
  have := (hrun.statsInv h st hst).1
  omega

/-- Witness for C7: one sampled 512-byte allocation (ratio 1) followed by its
free; the stack's entry ends with `freed_bytes = allocated_bytes = 512`. -/
theorem c7_witness :
    (YingProfiler.mk 1 1000000).sampling_ratio = 1 ∧
    mapLookup (run ⟨1, 1000000⟩ initState
        [Op.allocOp 0 512 1 42 5, Op.deallocOp 0 1 512]).stackStats 42
      = some ⟨512, 1, 512, 1⟩ ∧
    (512 : Nat) ≤ 512 := by
  refine ⟨rfl, by decide, ?_⟩
  exact c7_freed_le_allocated ⟨1, 1000000⟩
    [Op.allocOp 0 512 1 42 5, Op.deallocOp 0 1 512] 42 ⟨512, 1, 512, 1⟩
    (by decide) (by decide) (by decide)

end Ying
